import Mathlib

set_option maxRecDepth 8000

/-!
Shallow embedding of `src/md_lint.py`: the per-document markdown scanner
`check_file` and its helper checks.  Text is modelled as `List Char`.
Python's `str.splitlines` is modelled with its full set of line-boundary
characters (LF, CR, CRLF, VT, FF, FS, GS, RS, NEL, LINE SEPARATOR,
PARAGRAPH SEPARATOR); Python's `\s` character class is modelled by its
ASCII part (the remaining `\s` characters are either line boundaries,
which cannot occur inside a split line, or exotic Unicode spaces).
-/

/-- Python regex `\s` (ASCII part), also used for `str.strip()`. -/
def isPySpace (c : Char) : Bool :=
  c == ' ' || c == '\t' || c == '\n' || c == '\r' || c == '\x0b' || c == '\x0c'

/-- Python `str.strip()`. -/
def pystrip (l : List Char) : List Char :=
  ((l.dropWhile isPySpace).reverse.dropWhile isPySpace).reverse

/-- Last character of a piece of text, if any. -/
def lastChar? : List Char → Option Char
  | [] => none
  | [c] => some c
  | _ :: rest => lastChar? rest

/-- Python `raw.endswith("\n")`. -/
def endsWithNL (l : List Char) : Bool := lastChar? l == some '\n'

/-- Python `CRLF_PAT.search(raw)`: does the text contain a `"\r\n"` pair? -/
def hasCRLF : List Char → Bool
  | [] => false
  | c :: rest => if c == '\r' && rest.head? == some '\n' then true else hasCRLF rest

/-- The line-boundary characters of Python `str.splitlines`:
`\n`, `\r`, `\x0b` (VT), `\x0c` (FF), `\x1c` (FS), `\x1d` (GS),
`\x1e` (RS), `\x85` (NEL), `\u2028` (LINE SEPARATOR) and `\u2029`
(PARAGRAPH SEPARATOR); `"\r\n"` counts as a single boundary. -/
def isLineBreak (c : Char) : Bool :=
  c == '\n' || c == '\r' || c == '\x0b' || c == '\x0c' || c == '\x1c'
    || c == '\x1d' || c == '\x1e' || c == '\x85' || c == '\u2028' || c == '\u2029'

/-- Worker for `pySplitlines`; `acc` holds the current line reversed.
A boundary at the very end of the text closes the final line without
starting a new one. -/
def splitlinesGo (acc : List Char) : List Char → List (List Char)
  | [] => [acc.reverse]
  | [c] => if isLineBreak c then [acc.reverse] else [(c :: acc).reverse]
  | c :: d :: rest =>
    if c = '\r' ∧ d = '\n' then
      if rest.isEmpty then [acc.reverse] else acc.reverse :: splitlinesGo [] rest
    else if isLineBreak c then acc.reverse :: splitlinesGo [] (d :: rest)
    else splitlinesGo (c :: acc) (d :: rest)

/-- Python `raw.splitlines()`. -/
def pySplitlines (l : List Char) : List (List Char) :=
  match l with
  | [] => []
  | _ => splitlinesGo [] l

/-- Does the text end in a `str.splitlines` boundary character? -/
def endsWithBreak (l : List Char) : Bool :=
  match lastChar? l with
  | some c => isLineBreak c
  | none => false

/-- Python `lines[n]` (total variant is `pyNthD`). -/
def pyNth? : List α → Nat → Option α
  | [], _ => none
  | x :: _, 0 => some x
  | _ :: r, n + 1 => pyNth? r n

/-- `pyNth?` with a default of the empty line. -/
def pyNthD (l : List (List Char)) (n : Nat) : List Char := (pyNth? l n).getD []

/-- `CODE_FENCE_PAT.match(line)` for `^(\s*)(`{3,}|~{3,})(.*)$`:
returns the captured indentation and the first marker character. -/
def matchFence (line : List Char) : Option (List Char × Char) :=
  let indent := line.takeWhile isPySpace
  match line.dropWhile isPySpace with
  | c :: rest =>
    if (c == '`' || c == '~') && 2 ≤ (rest.takeWhile (· == c)).length then
      some (indent, c)
    else none
  | [] => none

/-- `HEADING_PAT.match(line)` for `^(#{1,6})\s*(.*)$`:
returns the captured hash run (at most six) and the remaining text. -/
def matchHeading (line : List Char) : Option (List Char × List Char) :=
  let hs := (line.takeWhile (· == '#')).take 6
  if hs.isEmpty then none
  else some (hs, (line.drop hs.length).dropWhile isPySpace)

/-- `TRAILING_SPACE_PAT.search(line)` for `[ \t]+$`. -/
def hasTrailingWS (line : List Char) : Bool :=
  match lastChar? line with
  | some c => c == ' ' || c == '\t'
  | none => false

/-- `TABLE_LINE_PAT.match(line)` for `^\s*\|.*\|\s*$`: the stripped line
starts and ends with distinct pipe characters. -/
def matchTable (line : List Char) : Bool :=
  let t := pystrip line
  decide (2 ≤ t.length) && t.head? == some '|' && lastChar? t == some '|'

/-- `LIST_MARKER_PAT.match(line)` for `^(\s*)([-+*]|\d+\.)\s+`:
returns the captured indentation on a match. -/
def matchListIndent (line : List Char) : Option (List Char) :=
  let ind := line.takeWhile isPySpace
  match line.dropWhile isPySpace with
  | c :: rest =>
    if c == '-' || c == '+' || c == '*' then
      match rest.head? with
      | some w => if isPySpace w then some ind else none
      | none => none
    else if c.isDigit then
      let ds := rest.takeWhile Char.isDigit
      match rest.drop ds.length with
      | '.' :: r2 =>
        match r2.head? with
        | some w => if isPySpace w then some ind else none
        | none => none
      | _ => none
    else none
  | [] => none

/-- Worker for `removeInlineCode`; `some pending` means we are inside a
candidate span opened by a backtick, with `pending` the span body reversed. -/
def rmICGo : Option (List Char) → List Char → List Char
  | none, [] => []
  | none, c :: rest =>
    if c = '`' then rmICGo (some []) rest else c :: rmICGo none rest
  | some pending, [] => '`' :: pending.reverse
  | some pending, c :: rest =>
    if c = '`' then rmICGo none rest else rmICGo (some (c :: pending)) rest

/-- `INLINE_CODE_PAT.sub("", line)`: drop every `` `...` `` span. -/
def removeInlineCode (line : List Char) : List Char := rmICGo none line

/-- Column (0-based) of the first tab; total variant of Python `line.index("\t")`. -/
def tabIdx : List Char → Nat
  | [] => 0
  | c :: rest => if c == '\t' then 0 else tabIdx rest + 1

/-- Python `line.index("\t")` with its failure case made explicit. -/
def tabIdxE : List Char → Option Nat
  | [] => none
  | c :: rest => if c == '\t' then some 0 else (tabIdxE rest).map (· + 1)

/-- Python `line.replace("\t", "\\t")`. -/
def escTabs (line : List Char) : List Char :=
  (line.map (fun c => if c == '\t' then ['\\', 't'] else [c])).flatten

/-- Python `line[-n:]`. -/
def myTakeRight (n : Nat) (l : List Char) : List Char := l.drop (l.length - n)

/-- Characters allowed in a URL scheme by `urllib.parse`. -/
def isSchemeChar (c : Char) : Bool :=
  c.isAlpha || c.isDigit || c == '+' || c == '-' || c == '.'

/-- `urllib.parse.urlparse(url).scheme`, `none` when the result is empty:
a colon after a nonempty run of scheme characters starting with a letter. -/
def urlScheme (url : List Char) : Option (List Char) :=
  let before := url.takeWhile (· != ':')
  if 0 < before.length ∧ before.length < url.length
      ∧ (url.headD ' ').isAlpha ∧ before.all isSchemeChar then
    some (before.map Char.toLower)
  else none

/-- Match `LINK_PAT`'s bracket part `\[([^\]]*)\]\(([^)]+)\)` at the start of
`cs`: returns consumed length, link text and target. -/
def matchLinkCore (cs : List Char) : Option (Nat × List Char × List Char) :=
  match cs with
  | '[' :: r1 =>
    let text := r1.takeWhile (· != ']')
    match r1.drop text.length with
    | ']' :: '(' :: r3 =>
      let url := r3.takeWhile (· != ')')
      if url.isEmpty then none
      else
        match r3.drop url.length with
        | ')' :: _ => some (text.length + url.length + 4, text, url)
        | _ => none
    | _ => none
  | _ => none

/-- Match `LINK_PAT` (`!?\[([^\]]*)\]\(([^)]+)\)`) at the start of `cs`. -/
def matchLinkAt (cs : List Char) : Option (Nat × List Char × List Char) :=
  match cs with
  | '!' :: rest => (matchLinkCore rest).map (fun r => (r.1 + 1, r.2))
  | _ => matchLinkCore cs

/-- Worker for `findLinks`.  Each step consumes at least one character, so
fuel `cs.length` never runs out before the text does. -/
def findLinksGo : Nat → Nat → List Char → List (Nat × List Char × List Char)
  | 0, _, _ => []
  | fuel + 1, pos, cs =>
    match matchLinkAt cs with
    | some (n, t, u) => (pos, t, u) :: findLinksGo fuel (pos + n) (cs.drop n)
    | none =>
      match cs with
      | [] => []
      | _ :: rest => findLinksGo fuel (pos + 1) rest

/-- `LINK_PAT.finditer(line)`: all matches with their start positions. -/
def findLinks (line : List Char) : List (Nat × List Char × List Char) :=
  findLinksGo line.length 0 line

/-- First-occurrence deduplication, modelling iteration over `set(l)`
(CPython's actual set order is unspecified; so is the tie-break, per the
spec, and no property below depends on it). -/
def pyDistinctGo (seen : List Nat) : List Nat → List Nat
  | [] => []
  | x :: r => if x ∈ seen then pyDistinctGo seen r else x :: pyDistinctGo (x :: seen) r

def pyDistinct (l : List Nat) : List Nat := pyDistinctGo [] l

/-- `max(set(l), key=l.count)`: the most frequent value (total variant). -/
def pyMajority (l : List Nat) : Nat :=
  (pyDistinct l).foldl (fun b x => if l.count b < l.count x then x else b)
    ((pyDistinct l).headD 0)

/-- `max(set(l), key=l.count)` with its failure on the empty list explicit. -/
def pyMajorityE (l : List Nat) : Option Nat :=
  match l with
  | [] => none
  | _ => some (pyMajority l)

/-- One finding of the linter (`Issue` dataclass). -/
structure Issue where
  file : String
  line : Nat
  col : Nat
  code : String
  message : String
  context : List Char
deriving DecidableEq

/-- Code-fence portion of the scan state. -/
structure FenceSt where
  isOpen : Bool
  marker : Option Char
  indent : List Char
deriving DecidableEq

def fenceInit : FenceSt := ⟨false, none, []⟩

/-- The fence transition of the scanner's per-line loop. -/
def fenceStep (f : FenceSt) (line : List Char) : FenceSt :=
  match matchFence line with
  | none => f
  | some (indent, mc) =>
    if f.isOpen = false then ⟨true, some mc, indent⟩
    else if f.marker = some mc ∧ f.indent = indent then fenceInit
    else f

def fenceFold (f : FenceSt) (lines : List (List Char)) : FenceSt :=
  lines.foldl fenceStep f

/-- Fence state after scanning all lines of a document. -/
def fenceAfter (lines : List (List Char)) : FenceSt := fenceFold fenceInit lines

/-- Full scan state of `check_file`'s line loop. -/
structure LintState where
  fence : FenceSt
  last_heading_level : Nat
  seen_h1 : Bool
  table_run : List Nat
deriving DecidableEq

def initState : LintState := ⟨fenceInit, 0, false, []⟩

/-- The excess-blank-line check (fires when `i >= 3` and `lines[i-2]`,
`lines[i-1]` and the current line all strip to empty — note that
`lines[i-2]` and `lines[i-1]` are the previous and the current line). -/
def blankIssues (path : String) (lines : List (List Char)) (i : Nat) (line : List Char) :
    List Issue :=
  if 3 ≤ i ∧ pystrip (pyNthD lines (i - 2)) = [] ∧ pystrip (pyNthD lines (i - 1)) = []
      ∧ pystrip line = [] then
    [⟨path, i, 1, "W-MULTIBLANK", "빈 줄이 2줄 초과로 연속됩니다.", []⟩]
  else []

/-- The line-length check on the line with inline code spans removed. -/
def lenIssues (path : String) (maxLen i : Nat) (line : List Char) : List Issue :=
  let logical := removeInlineCode line
  if maxLen < logical.length then
    [⟨path, i, maxLen + 1, "W-LINELEN",
      "줄 길이 " ++ toString logical.length ++ " > " ++ toString maxLen ++ ".",
      line.take (maxLen + 20)⟩]
  else []

/-- The tab-detection check. -/
def tabIssues (path : String) (i : Nat) (line : List Char) : List Issue :=
  if line.contains '\t' then
    [⟨path, i, tabIdx line + 1, "W-TAB", "탭 문자가 감지되었습니다(스페이스 권장).",
      (escTabs line).take 80⟩]
  else []

/-- The heading checks; returns the issues, the new `last_heading_level`
and the new `seen_h1`. -/
def headingResult (path : String) (i : Nat) (line : List Char)
    (lastLevel : Nat) (seenH1 : Bool) : List Issue × Nat × Bool :=
  match matchHeading line with
  | none => ([], lastLevel, seenH1)
  | some (hs, text) =>
    let level := hs.length
    let spaceI :=
      if (hs ++ [' ']).isPrefixOf line then []
      else [⟨path, i, hs.length + 1, "E-HEADSPACE",
        "헤딩의 '#' 다음에는 공백이 필요합니다.", line.take 80⟩]
    let emptyI :=
      if pystrip text = [] then
        [⟨path, i, hs.length + 2, "E-EMPTYHEAD", "빈 헤딩 텍스트.", line.take 80⟩]
      else []
    let h1I :=
      if level = 1 ∧ seenH1 then
        [⟨path, i, 1, "W-MULTIH1", "문서 내 H1 헤딩이 2개 이상입니다.", line.take 80⟩]
      else []
    let seen' := if level = 1 then true else seenH1
    let jumpI :=
      if lastLevel ≠ 0 ∧ lastLevel + 1 < level then
        [⟨path, i, 1, "W-HEADJUMP",
          "헤딩 레벨이 " ++ toString lastLevel ++ "→" ++ toString level ++ "로 2 이상 점프.",
          line.take 80⟩]
      else []
    (spaceI ++ emptyI ++ h1I ++ jumpI, level, seen')

/-- The link / image checks, over every `LINK_PAT` match of the line. -/
def linkIssuesOf (path : String) (i : Nat) (line : List Char) : List Issue :=
  (findLinks line).flatMap (fun m =>
    let start := m.1
    let text := m.2.1
    let url := m.2.2
    let isImage := (pyNth? line start).getD ' ' == '!'
    (if pystrip text = [] then
      [⟨path, i, start + 1,
        if isImage then "E-NOALTTEXT" else "W-EMPTYLINKTEXT",
        if isImage then "이미지의 대체텍스트(alt)가 비어 있습니다." else "링크 텍스트가 비어 있습니다.",
        line.take 120⟩]
    else [])
    ++ (if pystrip url = [] then
      [⟨path, i, start + 1, "E-EMPTYURL", "링크/이미지 URL이 비어 있습니다.", line.take 120⟩]
    else [])
    ++ (match urlScheme url with
      | some sch =>
        if sch = "http".toList ∨ sch = "https".toList ∨ sch = "mailto".toList then []
        else [⟨path, i, start + 1, "W-SCHEME",
          "비표준/의도치 않은 스킴 '" ++ String.mk sch ++ "'.", url.take 120⟩]
      | none => []))

/-- The pipe-count mismatch issues when a table block ends at line `i`. -/
def tableEndIssues (path : String) (i : Nat) (run : List Nat) : List Issue :=
  let exp := pyMajority run
  (run.filter (· ≠ exp)).map (fun c =>
    ⟨path, i, 1, "W-TABLEPIPES",
      "테이블 블록의 파이프 수 불일치(기대 " ++ toString exp ++ ", 실제 " ++ toString c ++ ").",
      []⟩)

/-- The table-block check; returns the issues and the new `table_run`. -/
def tableResult (path : String) (i : Nat) (line : List Char) (run : List Nat) :
    List Issue × List Nat :=
  if matchTable line then ([], run ++ [line.count '|'])
  else if run = [] then ([], [])
  else (tableEndIssues path i run, [])

/-- The list-indentation check. -/
def listIssues (path : String) (i : Nat) (line : List Char) : List Issue :=
  match matchListIndent line with
  | some ind =>
    if ind.contains '\t' then
      [⟨path, i, 1, "W-LISTTAB", "목록 들여쓰기에 탭 사용.", line.take 80⟩]
    else []
  | none => []

/-- One iteration of `check_file`'s line loop at 1-based index `i`. -/
def lintStep (path : String) (maxLen : Nat) (lines : List (List Char))
    (s : LintState) (i : Nat) : LintState × List Issue :=
  let line := pyNthD lines (i - 1)
  match matchFence line with
  | some _ => ({ s with fence := fenceStep s.fence line }, [])
  | none =>
    if s.fence.isOpen then
      (s,
        if hasTrailingWS line then
          [⟨path, i, line.length, "W-TRAIL", "코드블록 내 트레일링 공백.", myTakeRight 40 line⟩]
        else [])
    else
      let trailI :=
        if hasTrailingWS line then
          [⟨path, i, line.length, "W-TRAIL", "트레일링 공백.", myTakeRight 40 line⟩]
        else []
      let hr := headingResult path i line s.last_heading_level s.seen_h1
      let tr := tableResult path i line s.table_run
      ({ s with last_heading_level := hr.2.1, seen_h1 := hr.2.2, table_run := tr.2 },
        trailI ++ blankIssues path lines i line ++ lenIssues path maxLen i line
          ++ tabIssues path i line ++ hr.1 ++ linkIssuesOf path i line ++ tr.1
          ++ listIssues path i line)

/-- Run the line loop on lines `i, i+1, ..., i+n-1`. -/
def scanFrom (path : String) (maxLen : Nat) (lines : List (List Char))
    (s : LintState) (i : Nat) : Nat → LintState × List Issue
  | 0 => (s, [])
  | n + 1 =>
    let r := lintStep path maxLen lines s i
    let rest := scanFrom path maxLen lines r.1 (i + 1) n
    (rest.1, r.2 ++ rest.2)

/-- Scan state after the first `n` lines. -/
def stateAt (path : String) (maxLen : Nat) (lines : List (List Char)) (n : Nat) :
    LintState :=
  (scanFrom path maxLen lines initState 1 n).1

/-- The line loop plus end-of-document finalization of `check_file`. -/
def check_lines (path : String) (maxLen : Nat) (lines : List (List Char)) : List Issue :=
  let r := scanFrom path maxLen lines initState 1 lines.length
  r.2
    ++ (if r.1.fence.isOpen then
      [⟨path, lines.length, 1, "E-FENCE", "열린 코드 펜스가 닫히지 않았습니다.", []⟩]
    else [])
    ++ (if r.1.table_run = [] then []
      else tableEndIssues path lines.length r.1.table_run)

/-- `check_file` on successfully read text (with `check_links=False`). -/
def check_file_text (path : String) (raw : List Char) (maxLen : Nat) : List Issue :=
  (if hasCRLF raw then
    [⟨path, 1, 1, "W-CRLF", "윈도우 CRLF 줄바꿈 감지(가능하면 LF 권장).", []⟩]
  else [])
  ++ (if endsWithNL raw then []
  else [⟨path, 0, 0, "W-NOEOFNL", "파일 끝에 개행(Newline)이 없습니다.", []⟩])
  ++ check_lines path maxLen (pySplitlines raw)

/-- `check_file`: the read step is modelled by an `Except` argument; an
exception while opening or reading the file yields the single `E-READ`
issue and nothing else. -/
def check_file (path : String) (readResult : Except String (List Char)) (maxLen : Nat) :
    List Issue :=
  match readResult with
  | .error e => [⟨path, 0, 0, "E-READ", "파일을 열 수 없습니다: " ++ e, []⟩]
  | .ok raw => check_file_text path raw maxLen

/-! ### Basic helper lemmas -/

theorem mem_of_mem_ite {α} {c : Prop} [Decidable c] {l : List α} {x : α}
    (h : x ∈ (if c then l else [])) : x ∈ l := by
  split at h
  · exact h
  · exact absurd h (List.not_mem_nil x)

theorem mem_of_mem_ite' {α} {c : Prop} [Decidable c] {l : List α} {x : α}
    (h : x ∈ (if c then [] else l)) : x ∈ l := by
  split at h
  · exact absurd h (List.not_mem_nil x)
  · exact h

/-- The issue codes the per-line loop can emit. -/
def stepCodes : List String :=
  ["W-TRAIL", "W-MULTIBLANK", "W-LINELEN", "W-TAB", "E-HEADSPACE", "E-EMPTYHEAD",
   "W-MULTIH1", "W-HEADJUMP", "E-NOALTTEXT", "W-EMPTYLINKTEXT", "E-EMPTYURL",
   "W-SCHEME", "W-TABLEPIPES", "W-LISTTAB"]

theorem stepCodes_ne {c : String} (h : c ∈ stepCodes) :
    c ≠ "E-FENCE" ∧ c ≠ "W-NOEOFNL" ∧ c ≠ "W-CRLF" := by
  simp [stepCodes] at h
  rcases h with rfl | rfl | rfl | rfl | rfl | rfl | rfl | rfl | rfl | rfl | rfl | rfl | rfl | rfl
    <;> exact ⟨by decide, by decide, by decide⟩

theorem blankIssues_mem {path lines i line x} (h : x ∈ blankIssues path lines i line) :
    x.line = i ∧ x.code = "W-MULTIBLANK" := by
  unfold blankIssues at h
  have hx := mem_of_mem_ite h
  simp at hx
  subst hx
  exact ⟨rfl, rfl⟩

theorem lenIssues_mem {path maxLen i line x} (h : x ∈ lenIssues path maxLen i line) :
    x.line = i ∧ x.code = "W-LINELEN" := by
  unfold lenIssues at h
  have hx := mem_of_mem_ite h
  simp at hx
  subst hx
  exact ⟨rfl, rfl⟩

theorem tabIssues_mem {path i line x} (h : x ∈ tabIssues path i line) :
    x.line = i ∧ x.code = "W-TAB" := by
  unfold tabIssues at h
  have hx := mem_of_mem_ite h
  simp at hx
  subst hx
  exact ⟨rfl, rfl⟩

theorem headingResult_mem {path i line lastLevel seenH1 x}
    (h : x ∈ (headingResult path i line lastLevel seenH1).1) :
    x.line = i ∧ x.code ∈ ["E-HEADSPACE", "E-EMPTYHEAD", "W-MULTIH1", "W-HEADJUMP"] := by
  unfold headingResult at h
  rcases hm : matchHeading line with _ | ⟨hs, text⟩ <;> rw [hm] at h
  · exact absurd h (List.not_mem_nil x)
  · simp only [List.mem_append] at h
    rcases h with ((h | h) | h) | h
    · have hx := mem_of_mem_ite' h; simp at hx; subst hx; exact ⟨rfl, by simp⟩
    · have hx := mem_of_mem_ite h; simp at hx; subst hx; exact ⟨rfl, by simp⟩
    · have hx := mem_of_mem_ite h; simp at hx; subst hx; exact ⟨rfl, by simp⟩
    · have hx := mem_of_mem_ite h; simp at hx; subst hx; exact ⟨rfl, by simp⟩

theorem linkIssuesOf_mem {path i line x} (h : x ∈ linkIssuesOf path i line) :
    x.line = i ∧ x.code ∈ ["E-NOALTTEXT", "W-EMPTYLINKTEXT", "E-EMPTYURL", "W-SCHEME"] := by
  unfold linkIssuesOf at h
  rw [List.mem_flatMap] at h
  obtain ⟨m, -, h⟩ := h
  simp only [List.mem_append] at h
  rcases h with (h | h) | h
  · have hx := mem_of_mem_ite h
    simp at hx
    subst hx
    refine ⟨rfl, ?_⟩
    split <;> simp
  · have hx := mem_of_mem_ite h; simp at hx; subst hx; exact ⟨rfl, by simp⟩
  · rcases hs : urlScheme m.2.2 with _ | sch <;> rw [hs] at h
    · exact absurd h (List.not_mem_nil x)
    · have hx := mem_of_mem_ite' h; simp at hx; subst hx; exact ⟨rfl, by simp⟩

theorem tableEndIssues_mem {path i run x} (h : x ∈ tableEndIssues path i run) :
    x.line = i ∧ x.code = "W-TABLEPIPES" := by
  unfold tableEndIssues at h
  rw [List.mem_map] at h
  obtain ⟨c, -, rfl⟩ := h
  exact ⟨rfl, rfl⟩

theorem tableResult_mem {path i line run x} (h : x ∈ (tableResult path i line run).1) :
    x.line = i ∧ x.code = "W-TABLEPIPES" := by
  unfold tableResult at h
  split at h
  · exact absurd h (List.not_mem_nil x)
  · split at h
    · exact absurd h (List.not_mem_nil x)
    · exact tableEndIssues_mem h

theorem listIssues_mem {path i line x} (h : x ∈ listIssues path i line) :
    x.line = i ∧ x.code = "W-LISTTAB" := by
  unfold listIssues at h
  rcases hm : matchListIndent line with _ | ind <;> rw [hm] at h
  · exact absurd h (List.not_mem_nil x)
  · have hx := mem_of_mem_ite h; simp at hx; subst hx; exact ⟨rfl, rfl⟩

/-! ### Equation lemmas for `lintStep` -/

theorem lintStep_eq_fence {path maxLen lines s i v}
    (h : matchFence (pyNthD lines (i - 1)) = some v) :
    lintStep path maxLen lines s i =
      ({ s with fence := fenceStep s.fence (pyNthD lines (i - 1)) }, []) := by
  simp only [lintStep, h]

theorem lintStep_eq_infence {path maxLen lines s i}
    (h : matchFence (pyNthD lines (i - 1)) = none) (ho : s.fence.isOpen = true) :
    lintStep path maxLen lines s i =
      (s,
        if hasTrailingWS (pyNthD lines (i - 1)) then
          [⟨path, i, (pyNthD lines (i - 1)).length, "W-TRAIL", "코드블록 내 트레일링 공백.",
            myTakeRight 40 (pyNthD lines (i - 1))⟩]
        else []) := by
  simp only [lintStep, h, ho]
  simp

theorem lintStep_eq_outside {path maxLen lines s i}
    (h : matchFence (pyNthD lines (i - 1)) = none) (ho : s.fence.isOpen = false) :
    lintStep path maxLen lines s i =
      ({ s with
          last_heading_level :=
            (headingResult path i (pyNthD lines (i - 1)) s.last_heading_level s.seen_h1).2.1,
          seen_h1 :=
            (headingResult path i (pyNthD lines (i - 1)) s.last_heading_level s.seen_h1).2.2,
          table_run := (tableResult path i (pyNthD lines (i - 1)) s.table_run).2 },
        (if hasTrailingWS (pyNthD lines (i - 1)) then
          [⟨path, i, (pyNthD lines (i - 1)).length, "W-TRAIL", "트레일링 공백.",
            myTakeRight 40 (pyNthD lines (i - 1))⟩]
        else [])
          ++ blankIssues path lines i (pyNthD lines (i - 1))
          ++ lenIssues path maxLen i (pyNthD lines (i - 1))
          ++ tabIssues path i (pyNthD lines (i - 1))
          ++ (headingResult path i (pyNthD lines (i - 1)) s.last_heading_level s.seen_h1).1
          ++ linkIssuesOf path i (pyNthD lines (i - 1))
          ++ (tableResult path i (pyNthD lines (i - 1)) s.table_run).1
          ++ listIssues path i (pyNthD lines (i - 1))) := by
  simp only [lintStep, h, ho]
  simp

theorem lintStep_mem {path maxLen lines s i x} (h : x ∈ (lintStep path maxLen lines s i).2) :
    x.line = i ∧ x.code ∈ stepCodes := by
  rcases hm : matchFence (pyNthD lines (i - 1)) with _ | v
  · rcases ho : s.fence.isOpen with ho | ho
    · rw [lintStep_eq_outside hm (by assumption)] at h
      simp only [List.mem_append] at h
      rcases h with ((((((h | h) | h) | h) | h) | h) | h) | h
      · have hx := mem_of_mem_ite h; simp at hx; subst hx; exact ⟨rfl, by simp [stepCodes]⟩
      · obtain ⟨h1, h2⟩ := blankIssues_mem h; exact ⟨h1, by simp [stepCodes, h2]⟩
      · obtain ⟨h1, h2⟩ := lenIssues_mem h; exact ⟨h1, by simp [stepCodes, h2]⟩
      · obtain ⟨h1, h2⟩ := tabIssues_mem h; exact ⟨h1, by simp [stepCodes, h2]⟩
      · obtain ⟨h1, h2⟩ := headingResult_mem h
        refine ⟨h1, ?_⟩
        simp only [stepCodes, List.mem_cons, List.mem_singleton] at h2 ⊢
        tauto
      · obtain ⟨h1, h2⟩ := linkIssuesOf_mem h
        refine ⟨h1, ?_⟩
        simp only [stepCodes, List.mem_cons, List.mem_singleton] at h2 ⊢
        tauto
      · obtain ⟨h1, h2⟩ := tableResult_mem h; exact ⟨h1, by simp [stepCodes, h2]⟩
      · obtain ⟨h1, h2⟩ := listIssues_mem h; exact ⟨h1, by simp [stepCodes, h2]⟩
    · rw [lintStep_eq_infence hm (by assumption)] at h
      have hx := mem_of_mem_ite h
      simp at hx
      subst hx
      exact ⟨rfl, by simp [stepCodes]⟩
  · rw [lintStep_eq_fence hm] at h
    exact absurd h (List.not_mem_nil x)

/-! ### Decomposing the scan -/

theorem filter_eq_nil_of {p : Issue → Bool} {l : List Issue}
    (h : ∀ x ∈ l, p x = false) : l.filter p = [] := by
  induction l with
  | nil => rfl
  | cons a t ih =>
    rw [List.filter_cons, h a (List.mem_cons_self a t)]
    exact ih (fun x hx => h x (List.mem_cons_of_mem a hx))

theorem filter_eq_self_of {p : Issue → Bool} {l : List Issue}
    (h : ∀ x ∈ l, p x = true) : l.filter p = l := by
  induction l with
  | nil => rfl
  | cons a t ih =>
    rw [List.filter_cons, h a (List.mem_cons_self a t)]
    simp only [if_pos]
    rw [ih (fun x hx => h x (List.mem_cons_of_mem a hx))]

theorem scanFrom_add (path : String) (maxLen : Nat) (lines : List (List Char))
    (m k : Nat) (s : LintState) (i : Nat) :
    scanFrom path maxLen lines s i (m + k) =
      ((scanFrom path maxLen lines (scanFrom path maxLen lines s i m).1 (i + m) k).1,
        (scanFrom path maxLen lines s i m).2
          ++ (scanFrom path maxLen lines (scanFrom path maxLen lines s i m).1 (i + m) k).2) := by
  induction m generalizing s i with
  | zero => simp [scanFrom]
  | succ m ih =>
    have h1 : m + 1 + k = (m + k) + 1 := by omega
    rw [h1]
    simp only [scanFrom]
    rw [ih]
    have h2 : i + (m + 1) = i + 1 + m := by omega
    rw [h2]
    simp [List.append_assoc]

theorem scanFrom_line_range {path maxLen lines x} :
    ∀ {s : LintState} {i n : Nat}, x ∈ (scanFrom path maxLen lines s i n).2 →
      i ≤ x.line ∧ x.line < i + n := by
  intro s i n
  induction n generalizing s i with
  | zero => intro h; exact absurd h (List.not_mem_nil x)
  | succ n ih =>
    intro h
    simp only [scanFrom, List.mem_append] at h
    rcases h with h | h
    · obtain ⟨h1, -⟩ := lintStep_mem h
      omega
    · obtain ⟨h1, h2⟩ := ih h
      omega

theorem scanFrom_code {path maxLen lines x} :
    ∀ {s : LintState} {i n : Nat}, x ∈ (scanFrom path maxLen lines s i n).2 →
      x.code ∈ stepCodes := by
  intro s i n
  induction n generalizing s i with
  | zero => intro h; exact absurd h (List.not_mem_nil x)
  | succ n ih =>
    intro h
    simp only [scanFrom, List.mem_append] at h
    rcases h with h | h
    · exact (lintStep_mem h).2
    · exact ih h

theorem stateAt_succ {path maxLen lines i} (h : 1 ≤ i) :
    stateAt path maxLen lines i =
      (lintStep path maxLen lines (stateAt path maxLen lines (i - 1)) i).1 := by
  unfold stateAt
  have h1 : i = (i - 1) + 1 := by omega
  conv_lhs => rw [h1]
  rw [scanFrom_add]
  have h2 : 1 + (i - 1) = i := by omega
  rw [h2]
  simp [scanFrom]

/-- Membership in `check_lines` gives either a per-line issue or a final one. -/
theorem check_lines_mem {path maxLen lines x} (h : x ∈ check_lines path maxLen lines) :
    x.code ∈ stepCodes ∨ x.code = "E-FENCE" := by
  unfold check_lines at h
  simp only [List.mem_append] at h
  rcases h with (h | h) | h
  · exact Or.inl (scanFrom_code h)
  · have hx := mem_of_mem_ite h
    simp at hx
    subst hx
    exact Or.inr rfl
  · rcases hr : (scanFrom path maxLen lines initState 1 lines.length).1.table_run with _ | ⟨a, t⟩
    · rw [hr] at h
      simp at h
    · rw [hr] at h
      simp only [if_neg (by simp : ¬(a :: t = []))] at h
      exact Or.inl (by simp [stepCodes, (tableEndIssues_mem h).2])

/-- The filtered predicate used to single out one code at one line. -/
def codeAt (C : String) (i : Nat) (x : Issue) : Bool := decide (x.code = C ∧ x.line = i)

/-- Filtering the whole scan for code `C` at line `i` only sees the issues of
the step at line `i` (for codes that finalization cannot emit). -/
theorem check_lines_filter_at {path maxLen lines C i} (h1 : 1 ≤ i) (h2 : i ≤ lines.length)
    (hC1 : C ≠ "E-FENCE") (hC2 : C ≠ "W-TABLEPIPES") :
    (check_lines path maxLen lines).filter (codeAt C i)
      = ((lintStep path maxLen lines (stateAt path maxLen lines (i - 1)) i).2).filter
          (codeAt C i) := by
  unfold check_lines
  have hsplit : lines.length = (i - 1) + (1 + (lines.length - i)) := by omega
  rw [hsplit, scanFrom_add]
  have h3 : 1 + (i - 1) = i := by omega
  rw [h3]
  rw [Nat.add_comm 1 (lines.length - i)]
  simp only [scanFrom]
  simp only [List.filter_append, List.append_assoc]
  have hA : (scanFrom path maxLen lines initState 1 (i - 1)).2.filter (codeAt C i) = [] := by
    refine filter_eq_nil_of (fun x hx => ?_)
    have := scanFrom_line_range hx
    simp only [codeAt, decide_eq_false_iff_not]
    intro hc
    omega
  have hB : (scanFrom path maxLen lines
      (lintStep path maxLen lines (scanFrom path maxLen lines initState 1 (i - 1)).1 i).1
      (i + 1) (lines.length - i)).2.filter (codeAt C i) = [] := by
    refine filter_eq_nil_of (fun x hx => ?_)
    have := scanFrom_line_range hx
    simp only [codeAt, decide_eq_false_iff_not]
    intro hc
    omega
  have hF : ∀ (b : Bool) (j : Nat),
      (if b = true then
        [(⟨path, j, 1, "E-FENCE", "열린 코드 펜스가 닫히지 않았습니다.", []⟩ : Issue)]
      else []).filter (codeAt C i) = [] := by
    intro b j
    cases b with
    | false => simp
    | true =>
      simp only [if_pos rfl]
      refine filter_eq_nil_of (fun x hx => ?_)
      simp at hx
      subst hx
      simp only [codeAt, decide_eq_false_iff_not]
      rintro ⟨hc, -⟩
      exact hC1 hc.symm
  have hT : ∀ (run : List Nat) (j : Nat),
      (if run = [] then []
        else tableEndIssues path j run).filter (codeAt C i) = [] := by
    intro run j
    split
    · rfl
    · refine filter_eq_nil_of (fun x hx => ?_)
      have := (tableEndIssues_mem hx).2
      simp only [codeAt, decide_eq_false_iff_not]
      rintro ⟨hc, -⟩
      exact hC2 (this ▸ hc).symm
  rw [hA, hB, hF, hT]
  simp [stateAt]

/-! ### Filtering one step's issues by code -/

theorem filter_codeAt_nil {l : List Issue} {C : String} {i : Nat}
    (h : ∀ x ∈ l, ¬x.code = C) : l.filter (codeAt C i) = [] :=
  filter_eq_nil_of (fun x hx => by
    simp only [codeAt, decide_eq_false_iff_not]
    rintro ⟨hc, -⟩
    exact h x hx hc)

theorem heading_code_ne_trail {c : String}
    (h : c ∈ ["E-HEADSPACE", "E-EMPTYHEAD", "W-MULTIH1", "W-HEADJUMP"]) :
    ¬c = "W-TRAIL" := by
  simp at h
  rcases h with rfl | rfl | rfl | rfl <;> decide

theorem link_code_ne_trail {c : String}
    (h : c ∈ ["E-NOALTTEXT", "W-EMPTYLINKTEXT", "E-EMPTYURL", "W-SCHEME"]) :
    ¬c = "W-TRAIL" := by
  simp at h
  rcases h with rfl | rfl | rfl | rfl <;> decide

theorem lintStep_filter_trail {path maxLen lines s i}
    (hf : matchFence (pyNthD lines (i - 1)) = none)
    (ht : hasTrailingWS (pyNthD lines (i - 1)) = true) :
    ((lintStep path maxLen lines s i).2).filter (codeAt "W-TRAIL" i)
      = [⟨path, i, (pyNthD lines (i - 1)).length, "W-TRAIL",
          (if s.fence.isOpen then "코드블록 내 트레일링 공백." else "트레일링 공백."),
          myTakeRight 40 (pyNthD lines (i - 1))⟩] := by
  rcases ho : s.fence.isOpen with ho' | ho'
  · rw [lintStep_eq_outside hf (by assumption)]
    simp only [List.filter_append]
    rw [if_pos ht]
    have hb : (blankIssues path lines i (pyNthD lines (i - 1))).filter (codeAt "W-TRAIL" i)
        = [] := filter_codeAt_nil (fun x hx => by rw [(blankIssues_mem hx).2]; decide)
    have hl : (lenIssues path maxLen i (pyNthD lines (i - 1))).filter (codeAt "W-TRAIL" i)
        = [] := filter_codeAt_nil (fun x hx => by rw [(lenIssues_mem hx).2]; decide)
    have hta : (tabIssues path i (pyNthD lines (i - 1))).filter (codeAt "W-TRAIL" i)
        = [] := filter_codeAt_nil (fun x hx => by rw [(tabIssues_mem hx).2]; decide)
    have hh : ((headingResult path i (pyNthD lines (i - 1)) s.last_heading_level
        s.seen_h1).1).filter (codeAt "W-TRAIL" i) = [] :=
      filter_codeAt_nil (fun x hx => heading_code_ne_trail (headingResult_mem hx).2)
    have hli : (linkIssuesOf path i (pyNthD lines (i - 1))).filter (codeAt "W-TRAIL" i)
        = [] := filter_codeAt_nil (fun x hx => link_code_ne_trail (linkIssuesOf_mem hx).2)
    have htr : ((tableResult path i (pyNthD lines (i - 1)) s.table_run).1).filter
        (codeAt "W-TRAIL" i) = [] :=
      filter_codeAt_nil (fun x hx => by rw [(tableResult_mem hx).2]; decide)
    have hls : (listIssues path i (pyNthD lines (i - 1))).filter (codeAt "W-TRAIL" i)
        = [] := filter_codeAt_nil (fun x hx => by rw [(listIssues_mem hx).2]; decide)
    rw [hb, hl, hta, hh, hli, htr, hls]
    simp [codeAt, ho]
  · rw [lintStep_eq_infence hf (by assumption)]
    rw [if_pos ht]
    simp [codeAt, ho]

theorem check_file_text_filter_at {path : String} {raw : List Char} {maxLen C i}
    (h1 : 1 ≤ i) (h2 : i ≤ (pySplitlines raw).length)
    (hC0 : C ∈ stepCodes) (hC2 : C ≠ "W-TABLEPIPES") :
    (check_file_text path raw maxLen).filter (codeAt C i)
      = ((lintStep path maxLen (pySplitlines raw)
          (stateAt path maxLen (pySplitlines raw) (i - 1)) i).2).filter (codeAt C i) := by
  obtain ⟨hne1, hne2, hne3⟩ := stepCodes_ne hC0
  unfold check_file_text
  simp only [List.filter_append]
  rw [check_lines_filter_at h1 h2 hne1 hC2]
  have hcr : (if hasCRLF raw = true then
      [(⟨path, 1, 1, "W-CRLF", "윈도우 CRLF 줄바꿈 감지(가능하면 LF 권장).", []⟩ : Issue)]
    else []).filter (codeAt C i) = [] := by
    split
    · exact filter_codeAt_nil (fun x hx => by
        simp at hx; subst hx; exact fun hc => hne3 hc.symm)
    · rfl
  have hnl : (if endsWithNL raw = true then []
    else [(⟨path, 0, 0, "W-NOEOFNL", "파일 끝에 개행(Newline)이 없습니다.", []⟩ : Issue)]).filter
      (codeAt C i) = [] := by
    split
    · rfl
    · exact filter_codeAt_nil (fun x hx => by
        simp at hx; subst hx; exact fun hc => hne2 hc.symm)
  rw [hcr, hnl]
  simp

/-! ### C3: trailing whitespace -/

/-- C3 (counterexample): the line `"``` "` ends in a space (it has trailing
whitespace) yet the scanner emits no `W-TRAIL` at all for the document
`"``` \n```\n"`, because fence-delimiter lines skip the trailing-whitespace
check — refuting the claim that *every* line ending in space/tab gets one. -/
theorem C3_cex :
    hasTrailingWS (pyNthD (pySplitlines "``` \n```\n".toList) 0) = true
      ∧ check_file_text "f" "``` \n```\n".toList 120 = [] := by decide

/-- C3 (amended): for every line that is not a fence-delimiter line —
outside a fence or inside one — ending in space/tab, the scanner emits
exactly one `W-TRAIL` at that line with column equal to the raw line
length; fence-delimiter lines are exempt. -/
theorem C3_amended (path : String) (maxLen : Nat) (raw : List Char) (i : Nat)
    (h1 : 1 ≤ i) (h2 : i ≤ (pySplitlines raw).length)
    (hf : matchFence (pyNthD (pySplitlines raw) (i - 1)) = none)
    (ht : hasTrailingWS (pyNthD (pySplitlines raw) (i - 1)) = true) :
    (check_file_text path raw maxLen).filter (codeAt "W-TRAIL" i)
      = [⟨path, i, (pyNthD (pySplitlines raw) (i - 1)).length, "W-TRAIL",
          (if (stateAt path maxLen (pySplitlines raw) (i - 1)).fence.isOpen then
            "코드블록 내 트레일링 공백." else "트레일링 공백."),
          myTakeRight 40 (pyNthD (pySplitlines raw) (i - 1))⟩] := by
  rw [check_file_text_filter_at h1 h2 (by simp [stepCodes]) (by decide)]
  exact lintStep_filter_trail hf ht

/-- C3 witness: the theorem applied to the one-line document `"a \n"`. -/
theorem C3_amended_witness :
    (1 ≤ 1 ∧ 1 ≤ (pySplitlines "a \n".toList).length
      ∧ matchFence (pyNthD (pySplitlines "a \n".toList) 0) = none
      ∧ hasTrailingWS (pyNthD (pySplitlines "a \n".toList) 0) = true)
    ∧ (check_file_text "f" "a \n".toList 120).filter (codeAt "W-TRAIL" 1)
        = [⟨"f", 1, 2, "W-TRAIL", "트레일링 공백.", "a ".toList⟩] := by
  refine ⟨⟨le_refl 1, by decide, by decide, by decide⟩, ?_⟩
  have h := C3_amended "f" 120 "a \n".toList 1 (le_refl 1) (by decide) (by decide) (by decide)
  rw [h]
  decide

/-! ### C5: unterminated fences -/

theorem lintStep_fence_eq {path maxLen lines s i} :
    (lintStep path maxLen lines s i).1.fence = fenceStep s.fence (pyNthD lines (i - 1)) := by
  rcases hm : matchFence (pyNthD lines (i - 1)) with _ | v
  · rcases ho : s.fence.isOpen with ho' | ho'
    · rw [lintStep_eq_outside hm (by assumption)]
      simp [fenceStep, hm]
    · rw [lintStep_eq_infence hm (by assumption)]
      simp [fenceStep, hm]
  · rw [lintStep_eq_fence hm]

theorem pyNth?_eq_getElem? : ∀ (l : List α) (n : Nat), pyNth? l n = l[n]? := by
  intro l
  induction l with
  | nil => intro n; cases n <;> simp [pyNth?]
  | cons a t ih =>
    intro n
    cases n with
    | zero => simp [pyNth?]
    | succ n => simp [pyNth?, ih n]

theorem stateAt_zero {path maxLen lines} : stateAt path maxLen lines 0 = initState := rfl

theorem take_succ_eq {lines : List (List Char)} {n : Nat} (h : n < lines.length) :
    lines.take (n + 1) = lines.take n ++ [pyNthD lines n] := by
  rw [List.take_succ]
  congr 1
  rw [List.getElem?_eq_getElem h]
  simp [pyNthD, pyNth?_eq_getElem?, List.getElem?_eq_getElem h]

theorem stateAt_fence {path maxLen lines} :
    ∀ {n : Nat}, n ≤ lines.length →
      (stateAt path maxLen lines n).fence = fenceFold fenceInit (lines.take n) := by
  intro n
  induction n with
  | zero => intro _; simp [stateAt_zero, initState, fenceFold]
  | succ n ih =>
    intro h
    rw [stateAt_succ (by omega)]
    simp only [Nat.add_sub_cancel]
    rw [lintStep_fence_eq, ih (by omega)]
    rw [take_succ_eq (by omega)]
    simp [fenceFold, List.foldl_append]

/-- The filtered predicate used to single out one code anywhere. -/
def codeIs (C : String) (x : Issue) : Bool := decide (x.code = C)

/-- Line-level version of the `E-FENCE` characterization. -/
theorem fence_filter_check_lines (path : String) (maxLen : Nat) (lines : List (List Char)) :
    (check_lines path maxLen lines).filter (codeIs "E-FENCE")
      = if (fenceAfter lines).isOpen then
          [⟨path, lines.length, 1, "E-FENCE", "열린 코드 펜스가 닫히지 않았습니다.", []⟩]
        else [] := by
  unfold check_lines
  simp only [List.filter_append]
  have hscan : (scanFrom path maxLen lines initState 1 lines.length).2.filter
      (codeIs "E-FENCE") = [] :=
    filter_eq_nil_of (fun x hx => by
      obtain h := scanFrom_code hx
      simp only [codeIs, decide_eq_false_iff_not]
      exact fun hc => (stepCodes_ne h).1 hc)
  have htab : (if (scanFrom path maxLen lines initState 1 lines.length).1.table_run = []
      then [] else tableEndIssues path lines.length
        (scanFrom path maxLen lines initState 1 lines.length).1.table_run).filter
      (codeIs "E-FENCE") = [] := by
    split
    · rfl
    · exact filter_eq_nil_of (fun x hx => by
        rw [codeIs, (tableEndIssues_mem hx).2]
        decide)
  rw [hscan, htab]
  have hst : (scanFrom path maxLen lines initState 1 lines.length).1.fence
      = fenceAfter lines := by
    have := @stateAt_fence path maxLen lines lines.length (le_refl lines.length)
    rw [List.take_length] at this
    exact this
  rw [hst]
  split
  · simp [codeIs]
  · simp

/-! ### C4: scan-state invariant -/

theorem fenceStep_none {f : FenceSt} {line : List Char} (h : matchFence line = none) :
    fenceStep f line = f := by
  simp [fenceStep, h]

/-- The lines the scanner actually runs its structural checks on: lines that
are not fence-delimiter lines and are scanned outside any open fence. -/
def effLinesGo (f : FenceSt) : List (List Char) → List (List Char)
  | [] => []
  | l :: rest =>
    match matchFence l with
    | some _ => effLinesGo (fenceStep f l) rest
    | none => if f.isOpen then effLinesGo f rest else l :: effLinesGo f rest

def effLines (lines : List (List Char)) : List (List Char) := effLinesGo fenceInit lines

/-- The trailing run of table-matching lines. -/
def takeRightWhileTab (ls : List (List Char)) : List (List Char) :=
  ((ls.reverse.takeWhile (fun l => matchTable l)).reverse)

theorem effLinesGo_append (f : FenceSt) (ls : List (List Char)) (l : List Char) :
    effLinesGo f (ls ++ [l]) = effLinesGo f ls ++
      (match matchFence l with
        | some _ => []
        | none => if (fenceFold f ls).isOpen then [] else [l]) := by
  induction ls generalizing f with
  | nil =>
    rcases hm : matchFence l with _ | v <;> simp [effLinesGo, hm, fenceFold]
  | cons a t ih =>
    have hff : fenceFold f (a :: t) = fenceFold (fenceStep f a) t := by
      simp [fenceFold]
    rcases hm : matchFence a with _ | v
    · simp only [List.cons_append, effLinesGo, hm]
      split
      · simp only [List.append_eq]
        rw [ih, hff, fenceStep_none hm]
      · simp only [List.append_eq]
        rw [ih, hff, fenceStep_none hm]
        simp
    · simp only [List.cons_append, effLinesGo, hm]
      simp only [List.append_eq]
      rw [ih, hff]

theorem tRW_append (ls : List (List Char)) (l : List Char) :
    takeRightWhileTab (ls ++ [l]) =
      if matchTable l then takeRightWhileTab ls ++ [l] else [] := by
  unfold takeRightWhileTab
  rw [List.reverse_append]
  simp only [List.reverse_cons, List.reverse_nil, List.nil_append, List.singleton_append]
  rw [List.takeWhile_cons]
  split
  · simp
  · simp

theorem tableResult_snd_of_not {path i line run} (h : matchTable line = false) :
    (tableResult path i line run).2 = [] := by
  unfold tableResult
  rw [if_neg (by simp [h])]
  split <;> rfl

theorem tableResult_snd_of_match {path i line run} (h : matchTable line = true) :
    (tableResult path i line run).2 = run ++ [line.count '|'] := by
  unfold tableResult
  rw [if_pos h]

theorem stateAt_table {path maxLen lines} :
    ∀ {n : Nat}, n ≤ lines.length →
      (stateAt path maxLen lines n).table_run
        = (takeRightWhileTab (effLines (lines.take n))).map (fun l => l.count '|') := by
  intro n
  induction n with
  | zero => intro _; simp [stateAt_zero, initState, effLines, effLinesGo, takeRightWhileTab]
  | succ n ih =>
    intro h
    rw [stateAt_succ (by omega)]
    simp only [Nat.add_sub_cancel]
    rw [take_succ_eq (by omega)]
    rw [effLines, effLinesGo_append]
    have hfe : fenceFold fenceInit (lines.take n)
        = (stateAt path maxLen lines n).fence := (stateAt_fence (by omega)).symm
    rcases hm : matchFence (pyNthD lines n) with _ | v
    · rcases ho : (stateAt path maxLen lines n).fence.isOpen with ho' | ho'
      · rw [lintStep_eq_outside hm (by assumption)]
        simp only [hm, hfe, ho, Bool.false_eq_true, if_false]
        rcases hmt : matchTable (pyNthD lines n) with hmt' | hmt'
        · rw [tableResult_snd_of_not (by assumption)]
          rw [tRW_append, if_neg (by simp [hmt])]
          simp
        · rw [tableResult_snd_of_match (by assumption)]
          rw [tRW_append, if_pos (by simp [hmt])]
          simp only [List.map_append, List.map_cons, List.map_nil]
          rw [ih (by omega)]
          rfl
      · rw [lintStep_eq_infence hm (by assumption)]
        simp only [hm, hfe, ho, if_true, List.append_nil]
        exact ih (by omega)
    · rw [lintStep_eq_fence hm]
      simp only [hm, List.append_nil]
      exact ih (by omega)

/-- C4 (counterexample): a table row followed by a fence-delimiter line — the
fence line is not a table row, yet `table_run` is still non-empty after it is
scanned, refuting "any intervening non-table line (including a
fence-delimiter line) leaves table_run empty". -/
theorem C4_cex :
    (stateAt "f" 120 ["|a|".toList, "```".toList] 2).table_run = [2]
      ∧ matchTable (pyNthD ["|a|".toList, "```".toList] 1) = false := by decide

/-- C4 (amended): at every point of the scan exactly one of inside-fence /
outside-fence holds, and `table_run` equals the pipe counts of the trailing
run of table-matching lines among the *effective* lines scanned so far
(lines outside fences that are not fence-delimiter lines) — so a non-table
effective line empties it, while fence-delimiter lines and lines inside an
open fence leave it unchanged. -/
theorem C4_amended (path : String) (maxLen : Nat) (lines : List (List Char)) (n : Nat)
    (h : n ≤ lines.length) :
    ((stateAt path maxLen lines n).fence.isOpen = true
      ∨ (stateAt path maxLen lines n).fence.isOpen = false)
    ∧ (stateAt path maxLen lines n).table_run
        = (takeRightWhileTab (effLines (lines.take n))).map (fun l => l.count '|') := by
  constructor
  · rcases hb : (stateAt path maxLen lines n).fence.isOpen with hb' | hb'
    · exact Or.inr rfl
    · exact Or.inl rfl
  · exact stateAt_table h

/-- C4 witness: the theorem applied to the one-line document `["|a|"]`. -/
theorem C4_amended_witness :
    (1 ≤ (["|a|".toList] : List (List Char)).length)
    ∧ (((stateAt "f" 120 ["|a|".toList] 1).fence.isOpen = true
        ∨ (stateAt "f" 120 ["|a|".toList] 1).fence.isOpen = false)
      ∧ (stateAt "f" 120 ["|a|".toList] 1).table_run
          = (takeRightWhileTab (effLines ((["|a|".toList] : List (List Char)).take 1))).map
              (fun l => l.count '|')) :=
  ⟨by decide, C4_amended "f" 120 ["|a|".toList] 1 (by decide)⟩

/-! ### C6 / C10: heading checks -/

theorem filter_codeAt_ite_ne {c : Prop} [Decidable c] {a : Issue} {C : String} {i : Nat}
    (h : ¬a.code = C) :
    (if c then [a] else []).filter (codeAt C i) = [] := by
  split
  · simp [codeAt, h]
  · rfl

theorem filter_codeAt_ite_ne' {c : Prop} [Decidable c] {a : Issue} {C : String} {i : Nat}
    (h : ¬a.code = C) :
    (if c then [] else [a]).filter (codeAt C i) = [] := by
  split
  · rfl
  · simp [codeAt, h]

theorem filter_codeAt_ite_self {c : Prop} [Decidable c] {a : Issue} {C : String} {i : Nat}
    (h1 : a.code = C) (h2 : a.line = i) :
    (if c then [a] else []).filter (codeAt C i) = if c then [a] else [] := by
  split
  · simp [codeAt, h1, h2]
  · rfl

theorem filter_codeAt_ite_self' {c : Prop} [Decidable c] {a : Issue} {C : String} {i : Nat}
    (h1 : a.code = C) (h2 : a.line = i) :
    (if c then [] else [a]).filter (codeAt C i) = if c then [] else [a] := by
  split
  · rfl
  · simp [codeAt, h1, h2]

theorem heading_code_ne {c C : String}
    (hmem : c ∈ ["E-HEADSPACE", "E-EMPTYHEAD", "W-MULTIH1", "W-HEADJUMP"])
    (hC : ¬C ∈ (["E-HEADSPACE", "E-EMPTYHEAD", "W-MULTIH1", "W-HEADJUMP"] : List String)) :
    ¬c = C := by
  intro heq
  exact hC (heq ▸ hmem)

theorem link_code_ne {c C : String}
    (hmem : c ∈ ["E-NOALTTEXT", "W-EMPTYLINKTEXT", "E-EMPTYURL", "W-SCHEME"])
    (hC : ¬C ∈ (["E-NOALTTEXT", "W-EMPTYLINKTEXT", "E-EMPTYURL", "W-SCHEME"] : List String)) :
    ¬c = C := by
  intro heq
  exact hC (heq ▸ hmem)

/-- Filtering one outside-fence step for a code that only the heading check
can produce reduces to filtering the heading issues. -/
theorem lintStep_filter_heading {path maxLen lines s i C}
    (hf : matchFence (pyNthD lines (i - 1)) = none) (ho : s.fence.isOpen = false)
    (hC : C ∈ (["E-HEADSPACE", "E-EMPTYHEAD", "W-MULTIH1", "W-HEADJUMP"] : List String)) :
    ((lintStep path maxLen lines s i).2).filter (codeAt C i)
      = ((headingResult path i (pyNthD lines (i - 1)) s.last_heading_level s.seen_h1).1).filter
          (codeAt C i) := by
  have hCne : C ≠ "W-TRAIL" ∧ C ≠ "W-MULTIBLANK" ∧ C ≠ "W-LINELEN" ∧ C ≠ "W-TAB"
      ∧ C ≠ "W-TABLEPIPES" ∧ C ≠ "W-LISTTAB"
      ∧ ¬C ∈ (["E-NOALTTEXT", "W-EMPTYLINKTEXT", "E-EMPTYURL", "W-SCHEME"] : List String) := by
    simp at hC
    rcases hC with rfl | rfl | rfl | rfl <;> refine ⟨by decide, by decide, by decide, by decide,
      by decide, by decide, by decide⟩
  obtain ⟨hc1, hc2, hc3, hc4, hc5, hc6, hc7⟩ := hCne
  rw [lintStep_eq_outside hf ho]
  simp only [List.filter_append]
  have k1 : (if hasTrailingWS (pyNthD lines (i - 1)) = true then
      [(⟨path, i, (pyNthD lines (i - 1)).length, "W-TRAIL", "트레일링 공백.",
        myTakeRight 40 (pyNthD lines (i - 1))⟩ : Issue)]
    else []).filter (codeAt C i) = [] :=
    filter_codeAt_ite_ne (fun hx => hc1 hx.symm)
  have k2 : (blankIssues path lines i (pyNthD lines (i - 1))).filter (codeAt C i) = [] :=
    filter_eq_nil_of (fun x hx => by
      simp only [codeAt, decide_eq_false_iff_not]
      rintro ⟨hc, -⟩
      exact hc2 ((blankIssues_mem hx).2 ▸ hc).symm)
  have k3 : (lenIssues path maxLen i (pyNthD lines (i - 1))).filter (codeAt C i) = [] :=
    filter_eq_nil_of (fun x hx => by
      simp only [codeAt, decide_eq_false_iff_not]
      rintro ⟨hc, -⟩
      exact hc3 ((lenIssues_mem hx).2 ▸ hc).symm)
  have k4 : (tabIssues path i (pyNthD lines (i - 1))).filter (codeAt C i) = [] :=
    filter_eq_nil_of (fun x hx => by
      simp only [codeAt, decide_eq_false_iff_not]
      rintro ⟨hc, -⟩
      exact hc4 ((tabIssues_mem hx).2 ▸ hc).symm)
  have k5 : (linkIssuesOf path i (pyNthD lines (i - 1))).filter (codeAt C i) = [] :=
    filter_eq_nil_of (fun x hx => by
      simp only [codeAt, decide_eq_false_iff_not]
      rintro ⟨hc, -⟩
      exact link_code_ne (linkIssuesOf_mem hx).2 hc7 hc)
  have k6 : ((tableResult path i (pyNthD lines (i - 1)) s.table_run).1).filter
      (codeAt C i) = [] :=
    filter_eq_nil_of (fun x hx => by
      simp only [codeAt, decide_eq_false_iff_not]
      rintro ⟨hc, -⟩
      exact hc5 ((tableResult_mem hx).2 ▸ hc).symm)
  have k7 : (listIssues path i (pyNthD lines (i - 1))).filter (codeAt C i) = [] :=
    filter_eq_nil_of (fun x hx => by
      simp only [codeAt, decide_eq_false_iff_not]
      rintro ⟨hc, -⟩
      exact hc6 ((listIssues_mem hx).2 ▸ hc).symm)
  rw [k1, k2, k3, k4, k5, k6, k7]
  simp

theorem lintStep_filter_headjump {path maxLen lines s i hs txt}
    (hf : matchFence (pyNthD lines (i - 1)) = none) (ho : s.fence.isOpen = false)
    (hh : matchHeading (pyNthD lines (i - 1)) = some (hs, txt)) :
    ((lintStep path maxLen lines s i).2).filter (codeAt "W-HEADJUMP" i)
      = if s.last_heading_level ≠ 0 ∧ s.last_heading_level + 1 < hs.length then
          [⟨path, i, 1, "W-HEADJUMP",
            "헤딩 레벨이 " ++ toString s.last_heading_level ++ "→" ++ toString hs.length
              ++ "로 2 이상 점프.",
            (pyNthD lines (i - 1)).take 80⟩]
        else [] := by
  rw [lintStep_filter_heading hf ho (by simp)]
  unfold headingResult
  rw [hh]
  simp only [List.filter_append]
  have e1 : (if (hs ++ [' ']).isPrefixOf (pyNthD lines (i - 1)) = true then ([] : List Issue)
      else [⟨path, i, hs.length + 1, "E-HEADSPACE",
        "헤딩의 '#' 다음에는 공백이 필요합니다.", (pyNthD lines (i - 1)).take 80⟩]).filter
      (codeAt "W-HEADJUMP" i) = [] :=
    filter_codeAt_ite_ne' (by show ¬("E-HEADSPACE" : String) = "W-HEADJUMP"; decide)
  have e2 : (if pystrip txt = [] then
      [(⟨path, i, hs.length + 2, "E-EMPTYHEAD", "빈 헤딩 텍스트.",
        (pyNthD lines (i - 1)).take 80⟩ : Issue)]
    else []).filter (codeAt "W-HEADJUMP" i) = [] :=
    filter_codeAt_ite_ne (by show ¬("E-EMPTYHEAD" : String) = "W-HEADJUMP"; decide)
  have e3 : (if hs.length = 1 ∧ s.seen_h1 = true then
      [(⟨path, i, 1, "W-MULTIH1", "문서 내 H1 헤딩이 2개 이상입니다.",
        (pyNthD lines (i - 1)).take 80⟩ : Issue)]
    else []).filter (codeAt "W-HEADJUMP" i) = [] :=
    filter_codeAt_ite_ne (by show ¬("W-MULTIH1" : String) = "W-HEADJUMP"; decide)
  have e4 : (if s.last_heading_level ≠ 0 ∧ s.last_heading_level + 1 < hs.length then
      [(⟨path, i, 1, "W-HEADJUMP",
        "헤딩 레벨이 " ++ toString s.last_heading_level ++ "→" ++ toString hs.length
          ++ "로 2 이상 점프.",
        (pyNthD lines (i - 1)).take 80⟩ : Issue)]
    else []).filter (codeAt "W-HEADJUMP" i)
      = if s.last_heading_level ≠ 0 ∧ s.last_heading_level + 1 < hs.length then
          [⟨path, i, 1, "W-HEADJUMP",
            "헤딩 레벨이 " ++ toString s.last_heading_level ++ "→" ++ toString hs.length
              ++ "로 2 이상 점프.",
            (pyNthD lines (i - 1)).take 80⟩]
        else [] := filter_codeAt_ite_self rfl rfl
  rw [e1, e2, e3, e4]
  simp

theorem lintStep_filter_headspace {path maxLen lines s i hs txt}
    (hf : matchFence (pyNthD lines (i - 1)) = none) (ho : s.fence.isOpen = false)
    (hh : matchHeading (pyNthD lines (i - 1)) = some (hs, txt)) :
    ((lintStep path maxLen lines s i).2).filter (codeAt "E-HEADSPACE" i)
      = if (hs ++ [' ']).isPrefixOf (pyNthD lines (i - 1)) then []
        else [⟨path, i, hs.length + 1, "E-HEADSPACE",
          "헤딩의 '#' 다음에는 공백이 필요합니다.", (pyNthD lines (i - 1)).take 80⟩] := by
  rw [lintStep_filter_heading hf ho (by simp)]
  unfold headingResult
  rw [hh]
  simp only [List.filter_append]
  have e1 : (if (hs ++ [' ']).isPrefixOf (pyNthD lines (i - 1)) = true then ([] : List Issue)
      else [⟨path, i, hs.length + 1, "E-HEADSPACE",
        "헤딩의 '#' 다음에는 공백이 필요합니다.", (pyNthD lines (i - 1)).take 80⟩]).filter
      (codeAt "E-HEADSPACE" i)
      = if (hs ++ [' ']).isPrefixOf (pyNthD lines (i - 1)) = true then []
        else [⟨path, i, hs.length + 1, "E-HEADSPACE",
          "헤딩의 '#' 다음에는 공백이 필요합니다.", (pyNthD lines (i - 1)).take 80⟩] :=
    filter_codeAt_ite_self' rfl rfl
  have e2 : (if pystrip txt = [] then
      [(⟨path, i, hs.length + 2, "E-EMPTYHEAD", "빈 헤딩 텍스트.",
        (pyNthD lines (i - 1)).take 80⟩ : Issue)]
    else []).filter (codeAt "E-HEADSPACE" i) = [] :=
    filter_codeAt_ite_ne (by show ¬("E-EMPTYHEAD" : String) = "E-HEADSPACE"; decide)
  have e3 : (if hs.length = 1 ∧ s.seen_h1 = true then
      [(⟨path, i, 1, "W-MULTIH1", "문서 내 H1 헤딩이 2개 이상입니다.",
        (pyNthD lines (i - 1)).take 80⟩ : Issue)]
    else []).filter (codeAt "E-HEADSPACE" i) = [] :=
    filter_codeAt_ite_ne (by show ¬("W-MULTIH1" : String) = "E-HEADSPACE"; decide)
  have e4 : (if s.last_heading_level ≠ 0 ∧ s.last_heading_level + 1 < hs.length then
      [(⟨path, i, 1, "W-HEADJUMP",
        "헤딩 레벨이 " ++ toString s.last_heading_level ++ "→" ++ toString hs.length
          ++ "로 2 이상 점프.",
        (pyNthD lines (i - 1)).take 80⟩ : Issue)]
    else []).filter (codeAt "E-HEADSPACE" i) = [] :=
    filter_codeAt_ite_ne (by show ¬("W-HEADJUMP" : String) = "E-HEADSPACE"; decide)
  rw [e1, e2, e3, e4]
  simp

theorem lintStep_heading_level {path maxLen lines s i hs txt}
    (hf : matchFence (pyNthD lines (i - 1)) = none) (ho : s.fence.isOpen = false)
    (hh : matchHeading (pyNthD lines (i - 1)) = some (hs, txt)) :
    (lintStep path maxLen lines s i).1.last_heading_level = hs.length := by
  rw [lintStep_eq_outside hf ho]
  show (headingResult path i (pyNthD lines (i - 1)) s.last_heading_level s.seen_h1).2.1
      = hs.length
  unfold headingResult
  rw [hh]

/-- A heading line is never a fence-delimiter line: it starts with `'#'`. -/
theorem matchFence_of_heading {line : List Char} {hs txt : List Char}
    (h : matchHeading line = some (hs, txt)) : matchFence line = none := by
  rcases line with _ | ⟨c, r⟩
  · simp [matchHeading] at h
  · by_cases hc : c = '#'
    · subst hc
      simp [matchFence, List.dropWhile_cons, isPySpace]
    · exfalso
      have : ((c :: r).takeWhile (· == '#')).take 6 = [] := by
        simp [List.takeWhile_cons, hc]
      simp [matchHeading, this] at h

/-- C6 (counterexample): headings of level 4 then level 1 — previous level
non-zero and absolute difference 3 > 1 — yet the scanner emits nothing,
because the code only flags upward jumps (`level - last > 1`). -/
theorem C6_cex :
    (stateAt "f" 120 (pySplitlines "#### a\n# b\n".toList) 1).last_heading_level = 4
      ∧ matchHeading (pyNthD (pySplitlines "#### a\n# b\n".toList) 1)
          = some ("#".toList, "b".toList)
      ∧ check_file_text "f" "#### a\n# b\n".toList 120 = [] := by decide

/-- C6 (amended): for every heading line outside fences, `W-HEADJUMP`
(naming both levels) is emitted exactly when the new level exceeds the
previous heading's level by more than one and the previous level is
non-zero; level-0 transitions, all decreases, and single-step increases
never trigger it — so headings 1, 2, 4 in sequence yield exactly one
`W-HEADJUMP`, between the level-2 and the level-4 heading. -/
theorem C6_amended (path : String) (maxLen : Nat) (raw : List Char) (i : Nat)
    (hs txt : List Char) (h1 : 1 ≤ i) (h2 : i ≤ (pySplitlines raw).length)
    (ho : (stateAt path maxLen (pySplitlines raw) (i - 1)).fence.isOpen = false)
    (hh : matchHeading (pyNthD (pySplitlines raw) (i - 1)) = some (hs, txt)) :
    (check_file_text path raw maxLen).filter (codeAt "W-HEADJUMP" i)
      = if (stateAt path maxLen (pySplitlines raw) (i - 1)).last_heading_level ≠ 0
            ∧ (stateAt path maxLen (pySplitlines raw) (i - 1)).last_heading_level + 1
              < hs.length then
          [⟨path, i, 1, "W-HEADJUMP",
            "헤딩 레벨이 "
              ++ toString (stateAt path maxLen (pySplitlines raw) (i - 1)).last_heading_level
              ++ "→" ++ toString hs.length ++ "로 2 이상 점프.",
            (pyNthD (pySplitlines raw) (i - 1)).take 80⟩]
        else [] := by
  rw [check_file_text_filter_at h1 h2 (by simp [stepCodes]) (by decide)]
  exact lintStep_filter_headjump (matchFence_of_heading hh) ho hh

/-- C6 witness: the theorem applied at the third heading of the document
with heading levels 1, 2, 4. -/
theorem C6_amended_witness :
    ((stateAt "f" 120 (pySplitlines "# a\n## b\n#### c\n".toList) 2).fence.isOpen = false
      ∧ matchHeading (pyNthD (pySplitlines "# a\n## b\n#### c\n".toList) 2)
          = some ("####".toList, "c".toList)
      ∧ (stateAt "f" 120 (pySplitlines "# a\n## b\n#### c\n".toList) 2).last_heading_level = 2)
    ∧ (check_file_text "f" "# a\n## b\n#### c\n".toList 120).filter (codeAt "W-HEADJUMP" 3)
        = [⟨"f", 3, 1, "W-HEADJUMP", "헤딩 레벨이 2→4로 2 이상 점프.", "#### c".toList⟩] := by
  refine ⟨⟨by decide, by decide, by decide⟩, ?_⟩
  have h := C6_amended "f" 120 "# a\n## b\n#### c\n".toList 3 "####".toList "c".toList
    (by decide) (by decide) (by decide) (by decide)
  rw [h]
  decide

theorem takeWhile_replicate_append (c : Char) (n : Nat) (t : List Char) :
    (List.replicate n c ++ t).takeWhile (· == c) = List.replicate n c ++ t.takeWhile (· == c) := by
  induction n with
  | zero => simp
  | succ n ih => simp [List.replicate_succ, List.takeWhile_cons, ih]

/-- A line beginning with seven (or more) hashes matches the heading pattern
with exactly the first six hashes captured, and never has a space right
after the captured run. -/
theorem matchHeading_of_seven {line : List Char}
    (h7 : line.take 7 = List.replicate 7 '#') :
    matchHeading line = some (List.replicate 6 '#', line.drop 6)
    ∧ ¬((List.replicate 6 '#' ++ [' ']).isPrefixOf line = true) := by
  obtain ⟨t, ht⟩ : ∃ t, line = List.replicate 7 '#' ++ t := by
    refine ⟨line.drop 7, ?_⟩
    conv_lhs => rw [← List.take_append_drop 7 line]
    rw [h7]
  subst ht
  have hsix : (7 : Nat) = 6 + 1 := rfl
  have hdecomp : List.replicate 7 '#' = List.replicate 6 '#' ++ List.replicate 1 '#' := by
    rw [hsix, List.replicate_add]
  have hdrop : (List.replicate 7 '#' ++ t).drop 6 = '#' :: t := by
    rw [hdecomp, List.append_assoc]
    rw [List.drop_left' (by simp)]
    rfl
  constructor
  · unfold matchHeading
    have htw : (List.replicate 7 '#' ++ t).takeWhile (· == '#')
        = List.replicate 7 '#' ++ t.takeWhile (· == '#') :=
      takeWhile_replicate_append '#' 7 t
    rw [htw]
    have htake : (List.replicate 7 '#' ++ t.takeWhile (· == '#')).take 6
        = List.replicate 6 '#' := by
      rw [List.take_append_of_le_length (by simp), List.take_replicate]
      norm_num
    rw [htake]
    rw [if_neg (by simp)]
    have hlen : (List.replicate 6 '#').length = 6 := by simp
    rw [hlen, hdrop]
    simp [List.dropWhile_cons, isPySpace]
  · intro hp
    rw [List.isPrefixOf_iff_prefix] at hp
    rw [hdecomp, List.append_assoc] at hp
    have hp2 := (List.prefix_append_right_inj (List.replicate 6 '#')).mp hp
    have : (' ' :: []) <+: ('#' :: t) := by
      simp only [List.singleton_append] at hp2
      exact hp2
    rw [List.cons_prefix_cons] at this
    exact absurd this.1 (by decide)

/-- C10: a line beginning with seven or more `#` outside a fence is treated
as a heading: the pattern captures only the first six hashes, the recorded
level is 6, and `E-HEADSPACE` is always emitted (at column 7), since the
character after the six-hash run is `#`, not a space. -/
theorem C10_sevenhash (path : String) (maxLen : Nat) (raw : List Char) (i : Nat)
    (h1 : 1 ≤ i) (h2 : i ≤ (pySplitlines raw).length)
    (ho : (stateAt path maxLen (pySplitlines raw) (i - 1)).fence.isOpen = false)
    (h7 : (pyNthD (pySplitlines raw) (i - 1)).take 7 = List.replicate 7 '#') :
    matchHeading (pyNthD (pySplitlines raw) (i - 1))
        = some (List.replicate 6 '#', (pyNthD (pySplitlines raw) (i - 1)).drop 6)
    ∧ (stateAt path maxLen (pySplitlines raw) i).last_heading_level = 6
    ∧ (check_file_text path raw maxLen).filter (codeAt "E-HEADSPACE" i)
        = [⟨path, i, 7, "E-HEADSPACE", "헤딩의 '#' 다음에는 공백이 필요합니다.",
            (pyNthD (pySplitlines raw) (i - 1)).take 80⟩] := by
  obtain ⟨hm, hpre⟩ := matchHeading_of_seven h7
  refine ⟨hm, ?_, ?_⟩
  · rw [stateAt_succ h1]
    rw [lintStep_heading_level (matchFence_of_heading hm) ho hm]
    simp
  · rw [check_file_text_filter_at h1 h2 (by simp [stepCodes]) (by decide)]
    rw [lintStep_filter_headspace (matchFence_of_heading hm) ho hm]
    rw [if_neg hpre]
    simp

/-- C10 witness: the theorem applied to the one-line document `"#######x\n"`. -/
theorem C10_sevenhash_witness :
    ((pyNthD (pySplitlines "#######x\n".toList) 0).take 7 = List.replicate 7 '#'
      ∧ (stateAt "f" 120 (pySplitlines "#######x\n".toList) 0).fence.isOpen = false)
    ∧ (matchHeading (pyNthD (pySplitlines "#######x\n".toList) 0)
        = some (List.replicate 6 '#', (pyNthD (pySplitlines "#######x\n".toList) 0).drop 6)
      ∧ (stateAt "f" 120 (pySplitlines "#######x\n".toList) 1).last_heading_level = 6
      ∧ (check_file_text "f" "#######x\n".toList 120).filter (codeAt "E-HEADSPACE" 1)
          = [⟨"f", 1, 7, "E-HEADSPACE", "헤딩의 '#' 다음에는 공백이 필요합니다.",
              "#######x".toList⟩]) := by
  refine ⟨⟨by decide, by decide⟩, ?_⟩
  have h := C10_sevenhash "f" 120 "#######x\n".toList 1 (by decide) (by decide) (by decide)
    (by decide)
  convert h using 3

/-! ### C7: appending a trailing newline -/

theorem hasCRLF_cons (c : Char) (rest : List Char) :
    hasCRLF (c :: rest) = if (c == '\r' && rest.head? == some '\n') = true then true
      else hasCRLF rest := rfl

theorem splitlinesGo_single (acc : List Char) (c : Char) :
    splitlinesGo acc [c]
      = if isLineBreak c then [acc.reverse] else [(c :: acc).reverse] := rfl

theorem splitlinesGo_cons_cons (acc : List Char) (c d : Char) (rest : List Char) :
    splitlinesGo acc (c :: d :: rest)
      = if c = '\r' ∧ d = '\n' then
          (if rest.isEmpty then [acc.reverse] else acc.reverse :: splitlinesGo [] rest)
        else if isLineBreak c then acc.reverse :: splitlinesGo [] (d :: rest)
        else splitlinesGo (c :: acc) (d :: rest) := rfl

theorem lastChar?_cons_cons (a b : Char) (l : List Char) :
    lastChar? (a :: b :: l) = lastChar? (b :: l) := rfl

theorem lastChar?_append_single (l : List Char) (c : Char) :
    lastChar? (l ++ [c]) = some c := by
  induction l with
  | nil => rfl
  | cons a t ih =>
    rcases t with _ | ⟨d, t2⟩
    · rfl
    · simp only [List.cons_append] at ih ⊢
      rw [lastChar?_cons_cons]
      exact ih

theorem endsWithBreak_cons_cons (a b : Char) (l : List Char) :
    endsWithBreak (a :: b :: l) = endsWithBreak (b :: l) := by
  unfold endsWithBreak
  rw [lastChar?_cons_cons]

theorem hasCRLF_append_nl : ∀ {raw : List Char}, lastChar? raw ≠ some '\r' →
    hasCRLF (raw ++ ['\n']) = hasCRLF raw := by
  intro raw
  induction raw with
  | nil => intro _; rfl
  | cons c rest ih =>
    intro h
    rcases rest with _ | ⟨d, r2⟩
    · have hc : ¬c = '\r' := fun hx => h (by rw [hx]; rfl)
      have l1 : hasCRLF ([c] ++ ['\n']) = false := by
        simp only [List.cons_append, List.nil_append]
        rw [hasCRLF_cons, if_neg (by simp [hc])]
        rfl
      have l2 : hasCRLF [c] = false := by
        rw [hasCRLF_cons, if_neg (by simp)]
        rfl
      rw [l1, l2]
    · have h' : lastChar? (d :: r2) ≠ some '\r' := by
        rwa [lastChar?_cons_cons] at h
      have l1 : hasCRLF ((c :: d :: r2) ++ ['\n'])
          = if (c == '\r' && some d == some '\n') = true then true
            else hasCRLF ((d :: r2) ++ ['\n']) := by
        simp only [List.cons_append]
        rw [hasCRLF_cons]
        simp only [List.head?_cons]
      have l2 : hasCRLF (c :: d :: r2)
          = if (c == '\r' && some d == some '\n') = true then true
            else hasCRLF (d :: r2) := by
        rw [hasCRLF_cons]
        simp only [List.head?_cons]
      rw [l1, l2, ih h']

theorem splitlinesGo_append_nl :
    ∀ (m : Nat) (raw acc : List Char), raw.length ≤ m → raw ≠ [] →
      endsWithBreak raw = false →
      splitlinesGo acc (raw ++ ['\n']) = splitlinesGo acc raw := by
  intro m
  induction m with
  | zero =>
    intro raw acc hl hne _
    exact absurd (List.length_eq_zero.mp (Nat.le_zero.mp hl)) hne
  | succ m ih =>
    intro raw acc hl hne hbr
    rcases raw with _ | ⟨c, rest⟩
    · exact absurd rfl hne
    · rcases rest with _ | ⟨d, r2⟩
      · have hc : isLineBreak c = false := hbr
        have hcr : ¬(c = '\r' ∧ '\n' = '\n') := by
          rintro ⟨hc1, -⟩
          rw [hc1] at hc
          exact absurd hc (by decide)
        rw [List.cons_append, List.nil_append]
        rw [splitlinesGo_cons_cons, if_neg hcr, if_neg (by simp [hc])]
        rw [splitlinesGo_single, if_pos (by decide)]
        rw [splitlinesGo_single, if_neg (by simp [hc])]
      · have hbr2 : endsWithBreak (d :: r2) = false := by
          rw [← endsWithBreak_cons_cons c]
          exact hbr
        by_cases hcd : c = '\r' ∧ d = '\n'
        · obtain ⟨hc1, hd1⟩ := hcd
          subst hc1
          subst hd1
          rcases r2 with _ | ⟨e, r3⟩
          · exact absurd hbr (by decide)
          · simp only [List.cons_append]
            rw [splitlinesGo_cons_cons, if_pos ⟨rfl, rfl⟩,
              if_neg (by simp)]
            rw [splitlinesGo_cons_cons, if_pos ⟨rfl, rfl⟩,
              if_neg (by simp)]
            have hbr3 : endsWithBreak (e :: r3) = false := by
              rw [← endsWithBreak_cons_cons '\n']
              exact hbr2
            have hrec := ih (e :: r3) [] (by simp at hl ⊢; omega) (by simp) hbr3
            simp only [List.cons_append] at hrec
            rw [hrec]
        · simp only [List.cons_append]
          rw [splitlinesGo_cons_cons, if_neg hcd]
          rw [splitlinesGo_cons_cons, if_neg hcd]
          have hrec := ih (d :: r2) [] (by simp at hl ⊢; omega) (by simp) hbr2
          have hrec2 := ih (d :: r2) (c :: acc) (by simp at hl ⊢; omega) (by simp) hbr2
          simp only [List.cons_append] at hrec hrec2
          by_cases hbc : isLineBreak c = true
          · rw [if_pos hbc, if_pos hbc, hrec]
          · rw [if_neg hbc, if_neg hbc, hrec2]

theorem pySplitlines_append_nl {raw : List Char} (h0 : raw ≠ [])
    (hbr : endsWithBreak raw = false) :
    pySplitlines (raw ++ ['\n']) = pySplitlines raw := by
  rcases raw with _ | ⟨c, rest⟩
  · exact absurd rfl h0
  · show splitlinesGo [] ((c :: rest) ++ ['\n']) = splitlinesGo [] (c :: rest)
    exact splitlinesGo_append_nl (c :: rest).length (c :: rest) [] le_rfl (by simp) hbr

theorem check_lines_nil (path : String) (maxLen : Nat) :
    check_lines path maxLen [] = [] := by
  simp [check_lines, scanFrom, initState, fenceInit]

theorem check_lines_emptyline (path : String) (maxLen : Nat) :
    check_lines path maxLen [[]] = [] := by
  unfold check_lines
  simp only [List.length_singleton, scanFrom]
  rw [@lintStep_eq_outside path maxLen [[]] initState 1 (by decide) rfl]
  have e1 : hasTrailingWS (pyNthD [[]] (1 - 1)) = false := by decide
  have e2 : blankIssues path [[]] 1 (pyNthD [[]] (1 - 1)) = [] := by
    unfold blankIssues
    rw [if_neg (by decide)]
  have e3 : lenIssues path maxLen 1 (pyNthD [[]] (1 - 1)) = [] := by
    simp only [lenIssues]
    have h0 : (removeInlineCode (pyNthD [[]] (1 - 1))).length = 0 := by decide
    rw [if_neg (by rw [h0]; exact Nat.not_lt_zero maxLen)]
  have e4 : tabIssues path 1 (pyNthD [[]] (1 - 1)) = [] := by
    unfold tabIssues
    rw [if_neg (by decide)]
  have e5 : (headingResult path 1 (pyNthD [[]] (1 - 1)) initState.last_heading_level
      initState.seen_h1) = ([], initState.last_heading_level, initState.seen_h1) := by
    unfold headingResult
    rw [show matchHeading (pyNthD [[]] (1 - 1)) = none from by decide]
  have e6 : linkIssuesOf path 1 (pyNthD [[]] (1 - 1)) = [] := by
    unfold linkIssuesOf
    rw [show findLinks (pyNthD [[]] (1 - 1)) = [] from by decide]
    rfl
  have e7 : tableResult path 1 (pyNthD [[]] (1 - 1)) initState.table_run = ([], []) := by
    unfold tableResult
    rw [if_neg (by decide), if_pos (show initState.table_run = [] from rfl)]
  have e8 : listIssues path 1 (pyNthD [[]] (1 - 1)) = [] := by
    unfold listIssues
    rw [show matchListIndent (pyNthD [[]] (1 - 1)) = none from by decide]
  rw [if_neg (by rw [e1]; simp)]
  rw [e2, e3, e4, e5, e6, e7, e8]
  simp [initState, fenceInit]

/-- C7 (counterexample): two texts not ending in a newline where appending
`"\n"` does not just remove `W-NOEOFNL`: `"a\r"` gains a `W-CRLF` (the
appended newline completes a CRLF pair), and `"\x0c\x0c"` — two form feeds,
which `str.splitlines` treats as line boundaries — gains an extra empty
third line, so a `W-MULTIBLANK` appears. -/
theorem C7_cex :
    (check_file_text "f" "a\r".toList 120
        = [⟨"f", 0, 0, "W-NOEOFNL", "파일 끝에 개행(Newline)이 없습니다.", []⟩]
      ∧ check_file_text "f" "a\r\n".toList 120
        = [⟨"f", 1, 1, "W-CRLF", "윈도우 CRLF 줄바꿈 감지(가능하면 LF 권장).", []⟩])
    ∧ (check_file_text "f" "\x0c\x0c".toList 120
        = [⟨"f", 0, 0, "W-NOEOFNL", "파일 끝에 개행(Newline)이 없습니다.", []⟩]
      ∧ check_file_text "f" "\x0c\x0c\n".toList 120
        = [⟨"f", 3, 1, "W-MULTIBLANK", "빈 줄이 2줄 초과로 연속됩니다.", []⟩])
    ∧ ¬(check_file_text "f" "a\r".toList 120).filter (fun x => !codeIs "W-NOEOFNL" x)
        = check_file_text "f" "a\r\n".toList 120
    ∧ ¬(check_file_text "f" "\x0c\x0c".toList 120).filter (fun x => !codeIs "W-NOEOFNL" x)
        = check_file_text "f" "\x0c\x0c\n".toList 120 := by decide

/-- C7 (amended): for every text whose last character is not one of
`str.splitlines`' line-boundary characters (in particular, the text does
not end in a newline), scanning yields exactly one `W-NOEOFNL`, and
scanning the text with `"\n"` appended yields exactly the same issue
sequence with that single `W-NOEOFNL` removed.  A text ending in `"\r"`
instead gains a `W-CRLF`, and a text ending in another boundary character
gains an extra empty final line whose effects change other issues, as the
counterexamples show. -/
theorem C7_amended (path : String) (maxLen : Nat) (raw : List Char)
    (hbr : endsWithBreak raw = false) :
    ((check_file_text path raw maxLen).filter (codeIs "W-NOEOFNL")).length = 1
    ∧ (check_file_text path raw maxLen).filter (fun x => !codeIs "W-NOEOFNL" x)
        = check_file_text path (raw ++ ['\n']) maxLen := by
  have hCL : ∀ lines, (check_lines path maxLen lines).filter (codeIs "W-NOEOFNL") = [] := by
    intro lines
    refine filter_eq_nil_of (fun x hx => ?_)
    simp only [codeIs, decide_eq_false_iff_not]
    rcases check_lines_mem hx with h | h
    · exact fun hc => (stepCodes_ne h).2.1 hc
    · intro hc
      rw [h] at hc
      exact absurd hc (by decide)
  have hCLkeep : ∀ lines, (check_lines path maxLen lines).filter
      (fun x => !codeIs "W-NOEOFNL" x) = check_lines path maxLen lines := by
    intro lines
    refine filter_eq_self_of (fun x hx => ?_)
    simp only [Bool.not_eq_true', codeIs, decide_eq_false_iff_not]
    rcases check_lines_mem hx with h | h
    · exact fun hc => (stepCodes_ne h).2.1 hc
    · intro hc
      rw [h] at hc
      exact absurd hc (by decide)
  have h1 : lastChar? raw ≠ some '\n' := by
    intro hx
    unfold endsWithBreak at hbr
    rw [hx] at hbr
    exact absurd hbr (by decide)
  have h2 : lastChar? raw ≠ some '\r' := by
    intro hx
    unfold endsWithBreak at hbr
    rw [hx] at hbr
    exact absurd hbr (by decide)
  rcases raw with _ | ⟨c, rest⟩
  · constructor
    · have hL : check_file_text path [] maxLen
          = [⟨path, 0, 0, "W-NOEOFNL", "파일 끝에 개행(Newline)이 없습니다.", []⟩] := by
        unfold check_file_text
        rw [show pySplitlines [] = [] from rfl]
        rw [check_lines_nil, if_neg (by decide), if_neg (by decide)]
        simp
      rw [hL]
      simp [codeIs]
    · have hL : check_file_text path [] maxLen
          = [⟨path, 0, 0, "W-NOEOFNL", "파일 끝에 개행(Newline)이 없습니다.", []⟩] := by
        unfold check_file_text
        rw [show pySplitlines [] = [] from rfl]
        rw [check_lines_nil, if_neg (by decide), if_neg (by decide)]
        simp
      have hR : check_file_text path ([] ++ ['\n']) maxLen = [] := by
        simp only [List.nil_append]
        unfold check_file_text
        rw [show pySplitlines ['\n'] = [[]] from by decide, check_lines_emptyline]
        rw [if_neg (by decide), if_pos (by decide)]
        simp
      rw [hL, hR]
      simp [codeIs]
  · have h0 : (c :: rest) ≠ [] := by simp
    have hlines := pySplitlines_append_nl h0 hbr
    have hcrlf := hasCRLF_append_nl h2
    have hendF : endsWithNL (c :: rest) = false := by
      simp only [endsWithNL]
      exact beq_eq_false_iff_ne.mpr h1
    have hendT : endsWithNL ((c :: rest) ++ ['\n']) = true := by
      simp only [endsWithNL, lastChar?_append_single]
      exact beq_self_eq_true _
    unfold check_file_text
    rw [hlines, hcrlf, hendF, hendT]
    have hcrnil : (if hasCRLF (c :: rest) = true then
        [(⟨path, 1, 1, "W-CRLF", "윈도우 CRLF 줄바꿈 감지(가능하면 LF 권장).", []⟩ : Issue)]
      else []).filter (codeIs "W-NOEOFNL") = [] := by
      split
      · simp [codeIs]
      · rfl
    have hcrkeep : (if hasCRLF (c :: rest) = true then
        [(⟨path, 1, 1, "W-CRLF", "윈도우 CRLF 줄바꿈 감지(가능하면 LF 권장).", []⟩ : Issue)]
      else []).filter (fun x => !codeIs "W-NOEOFNL" x)
        = (if hasCRLF (c :: rest) = true then
            [(⟨path, 1, 1, "W-CRLF", "윈도우 CRLF 줄바꿈 감지(가능하면 LF 권장).", []⟩ : Issue)]
          else []) := by
      split
      · simp [codeIs]
      · rfl
    constructor
    · simp only [List.filter_append]
      rw [hCL, hcrnil]
      simp [codeIs]
    · simp only [List.filter_append]
      rw [hCLkeep, hcrkeep]
      simp [codeIs]

/-- C7 witness: the theorem applied to the text `"abc"`. -/
theorem C7_amended_witness :
    endsWithBreak "abc".toList = false
    ∧ (((check_file_text "f" "abc".toList 120).filter (codeIs "W-NOEOFNL")).length = 1
      ∧ (check_file_text "f" "abc".toList 120).filter (fun x => !codeIs "W-NOEOFNL" x)
          = check_file_text "f" ("abc".toList ++ ['\n']) 120) :=
  ⟨by decide, C7_amended "f" 120 "abc".toList (by decide)⟩

/-! ### C1, C2, C8 -/

/-- C1 (code bug, evaluated): in `"a\n\n\n"` only lines 2 and 3 are blank —
line 1 (`"a"`) is not — yet the scanner emits `W-MULTIBLANK` at line 3:
the check reads `lines[i-2]` and `lines[i-1]`, the *previous* and *current*
lines, so it fires from the second consecutive blank (for `i ≥ 3`), against
the claim (and the code's own comment and message, which say three or more). -/
theorem C1_code_eval :
    check_file_text "f" "a\n\n\n".toList 120
        = [⟨"f", 3, 1, "W-MULTIBLANK", "빈 줄이 2줄 초과로 연속됩니다.", []⟩]
    ∧ pystrip (pyNthD (pySplitlines "a\n\n\n".toList) 0) ≠ [] := by decide

/-- C2 (counterexample): the line `"[text]()"` yields no issue at all — in
particular no `E-EMPTYURL` — because `LINK_PAT` requires at least one
character inside the parentheses, so an empty target never matches. -/
theorem C2_cex : check_file_text "f" "[text]()\n".toList 120 = [] := by decide

/-- C2 (amended): `![](img.png)` yields exactly one `E-NOALTTEXT`;
`[text]()` matches no link construct and yields no issue (the target
pattern needs a non-empty URL), while a whitespace-only target such as
`[text]( )` yields exactly one `E-EMPTYURL`; `[](ftp://host/x)` yields both
one `W-EMPTYLINKTEXT` and one `W-SCHEME` naming scheme `ftp`. -/
theorem C2_amended :
    check_file_text "f" "![](img.png)\n".toList 120
        = [⟨"f", 1, 1, "E-NOALTTEXT", "이미지의 대체텍스트(alt)가 비어 있습니다.",
            "![](img.png)".toList⟩]
    ∧ check_file_text "f" "[text]()\n".toList 120 = []
    ∧ check_file_text "f" "[text]( )\n".toList 120
        = [⟨"f", 1, 1, "E-EMPTYURL", "링크/이미지 URL이 비어 있습니다.", "[text]( )".toList⟩]
    ∧ check_file_text "f" "[](ftp://host/x)\n".toList 120
        = [⟨"f", 1, 1, "W-EMPTYLINKTEXT", "링크 텍스트가 비어 있습니다.",
            "[](ftp://host/x)".toList⟩,
           ⟨"f", 1, 1, "W-SCHEME", "비표준/의도치 않은 스킴 'ftp'.", "ftp://host/x".toList⟩] := by
  decide

/-- C8: when the read step fails, `check_file` returns exactly one issue —
category `E-READ`, with the underlying cause appended to its message — and
performs no other check; as a total function it cannot propagate any
exception. -/
theorem C8_read_error (path : String) (e : String) (maxLen : Nat) :
    check_file path (Except.error e) maxLen
      = [⟨path, 0, 0, "E-READ", "파일을 열 수 없습니다: " ++ e, []⟩] := rfl

/-! ### C9: totality of the scan -/

/-- The blank-run check with Python's partial indexing (`lines[i-2]`,
`lines[i-1]`) made explicit: `none` models an `IndexError`. -/
def blankIssuesE (path : String) (lines : List (List Char)) (i : Nat) (line : List Char) :
    Option (List Issue) :=
  if 3 ≤ i then
    (pyNth? lines (i - 2)).bind (fun l2 =>
      if pystrip l2 = [] then
        (pyNth? lines (i - 1)).map (fun l1 =>
          if pystrip l1 = [] ∧ pystrip line = [] then
            [⟨path, i, 1, "W-MULTIBLANK", "빈 줄이 2줄 초과로 연속됩니다.", []⟩]
          else [])
      else some [])
  else some []

/-- The tab check with `line.index("\t")`'s `ValueError` made explicit. -/
def tabIssuesE (path : String) (i : Nat) (line : List Char) : Option (List Issue) :=
  if line.contains '\t' then
    (tabIdxE line).map (fun k =>
      [⟨path, i, k + 1, "W-TAB", "탭 문자가 감지되었습니다(스페이스 권장).", (escTabs line).take 80⟩])
  else some []

/-- The table finalization with `max(set(...))`'s failure on an empty run
made explicit. -/
def tableEndIssuesE (path : String) (i : Nat) (run : List Nat) : Option (List Issue) :=
  (pyMajorityE run).map (fun exp =>
    (run.filter (· ≠ exp)).map (fun c =>
      ⟨path, i, 1, "W-TABLEPIPES",
        "테이블 블록의 파이프 수 불일치(기대 " ++ toString exp ++ ", 실제 " ++ toString c ++ ").",
        []⟩))

def tableResultE (path : String) (i : Nat) (line : List Char) (run : List Nat) :
    Option (List Issue × List Nat) :=
  if matchTable line then some ([], run ++ [line.count '|'])
  else if run = [] then some ([], [])
  else (tableEndIssuesE path i run).map (fun is => (is, []))

/-- `lintStep` with every partial operation routed through `Option`. -/
def lintStepE (path : String) (maxLen : Nat) (lines : List (List Char))
    (s : LintState) (i : Nat) : Option (LintState × List Issue) :=
  let line := pyNthD lines (i - 1)
  match matchFence line with
  | some _ => some ({ s with fence := fenceStep s.fence line }, [])
  | none =>
    if s.fence.isOpen then
      some (s,
        if hasTrailingWS line then
          [⟨path, i, line.length, "W-TRAIL", "코드블록 내 트레일링 공백.", myTakeRight 40 line⟩]
        else [])
    else
      (blankIssuesE path lines i line).bind (fun blankI =>
      (tabIssuesE path i line).bind (fun tabI =>
      (tableResultE path i line s.table_run).map (fun tr =>
        let hr := headingResult path i line s.last_heading_level s.seen_h1
        ({ s with last_heading_level := hr.2.1, seen_h1 := hr.2.2, table_run := tr.2 },
          (if hasTrailingWS line then
            [⟨path, i, line.length, "W-TRAIL", "트레일링 공백.", myTakeRight 40 line⟩]
          else [])
            ++ blankI ++ lenIssues path maxLen i line ++ tabI ++ hr.1
            ++ linkIssuesOf path i line ++ tr.1 ++ listIssues path i line))))

def scanFromE (path : String) (maxLen : Nat) (lines : List (List Char))
    (s : LintState) (i : Nat) : Nat → Option (LintState × List Issue)
  | 0 => some (s, [])
  | n + 1 =>
    (lintStepE path maxLen lines s i).bind (fun r =>
      (scanFromE path maxLen lines r.1 (i + 1) n).map (fun rest => (rest.1, r.2 ++ rest.2)))

def check_linesE (path : String) (maxLen : Nat) (lines : List (List Char)) :
    Option (List Issue) :=
  (scanFromE path maxLen lines initState 1 lines.length).bind (fun r =>
    ((if r.1.table_run = [] then some []
      else tableEndIssuesE path lines.length r.1.table_run).map (fun tfin =>
        r.2
          ++ (if r.1.fence.isOpen then
            [⟨path, lines.length, 1, "E-FENCE", "열린 코드 펜스가 닫히지 않았습니다.", []⟩]
          else [])
          ++ tfin)))

def check_file_textE (path : String) (raw : List Char) (maxLen : Nat) :
    Option (List Issue) :=
  (check_linesE path maxLen (pySplitlines raw)).map (fun cl =>
    (if hasCRLF raw then
      [⟨path, 1, 1, "W-CRLF", "윈도우 CRLF 줄바꿈 감지(가능하면 LF 권장).", []⟩]
    else [])
    ++ (if endsWithNL raw then []
    else [⟨path, 0, 0, "W-NOEOFNL", "파일 끝에 개행(Newline)이 없습니다.", []⟩])
    ++ cl)

theorem pyNth?_eq_some_nthD {l : List (List Char)} {n : Nat} (h : n < l.length) :
    pyNth? l n = some (pyNthD l n) := by
  unfold pyNthD
  rw [pyNth?_eq_getElem?]
  rw [List.getElem?_eq_getElem h]
  rfl

theorem blankIssuesE_eq {path lines i line} (_h1 : 1 ≤ i) (h2 : i ≤ lines.length) :
    blankIssuesE path lines i line = some (blankIssues path lines i line) := by
  unfold blankIssuesE blankIssues
  by_cases h3 : 3 ≤ i
  · rw [if_pos h3]
    rw [pyNth?_eq_some_nthD (show i - 2 < lines.length by omega)]
    rw [Option.some_bind]
    by_cases h4 : pystrip (pyNthD lines (i - 2)) = []
    · rw [if_pos h4]
      rw [pyNth?_eq_some_nthD (show i - 1 < lines.length by omega)]
      rw [Option.map_some']
      have hiff : (3 ≤ i ∧ pystrip (pyNthD lines (i - 2)) = []
          ∧ pystrip (pyNthD lines (i - 1)) = [] ∧ pystrip line = [])
          ↔ (pystrip (pyNthD lines (i - 1)) = [] ∧ pystrip line = []) := by
        constructor
        · rintro ⟨-, -, ha, hb⟩; exact ⟨ha, hb⟩
        · rintro ⟨ha, hb⟩; exact ⟨h3, h4, ha, hb⟩
      rw [if_congr hiff rfl rfl]
    · rw [if_neg h4]
      rw [if_neg (by rintro ⟨-, hx, -, -⟩; exact h4 hx)]
  · rw [if_neg h3]
    rw [if_neg (by rintro ⟨hx, -, -, -⟩; exact h3 hx)]

theorem tabIdxE_eq : ∀ {line : List Char}, line.contains '\t' = true →
    tabIdxE line = some (tabIdx line) := by
  intro line
  induction line with
  | nil => intro h; simp [List.contains] at h
  | cons c rest ih =>
    intro h
    by_cases hc : c == '\t'
    · simp [tabIdxE, tabIdx, hc]
    · have hrest : rest.contains '\t' = true := by
        simp only [List.contains_cons] at h
        rcases Bool.or_eq_true_iff.mp h with h' | h'
        · have hceq : c = '\t' := (eq_of_beq h').symm
          exact absurd (by simp [hceq]) hc
        · exact h'
      simp [tabIdxE, tabIdx, hc, ih hrest]

theorem tabIssuesE_eq {path i line} : tabIssuesE path i line = some (tabIssues path i line) := by
  unfold tabIssuesE tabIssues
  by_cases h : line.contains '\t'
  · rw [if_pos h, if_pos h, tabIdxE_eq h]
    rfl
  · rw [if_neg h, if_neg h]

theorem tableEndIssuesE_eq {path i run} (h : run ≠ []) :
    tableEndIssuesE path i run = some (tableEndIssues path i run) := by
  unfold tableEndIssuesE tableEndIssues pyMajorityE
  rcases run with _ | ⟨a, t⟩
  · exact absurd rfl h
  · rfl

theorem tableResultE_eq {path i line run} :
    tableResultE path i line run = some (tableResult path i line run) := by
  unfold tableResultE tableResult
  by_cases h : matchTable line = true
  · rw [if_pos h, if_pos h]
  · rw [if_neg h, if_neg h]
    by_cases h2 : run = []
    · rw [if_pos h2, if_pos h2]
    · rw [if_neg h2, if_neg h2, tableEndIssuesE_eq h2]
      rfl

theorem lintStepE_eq {path maxLen lines s i} (h1 : 1 ≤ i) (h2 : i ≤ lines.length) :
    lintStepE path maxLen lines s i = some (lintStep path maxLen lines s i) := by
  rcases hm : matchFence (pyNthD lines (i - 1)) with _ | v
  · rcases ho : s.fence.isOpen with ho' | ho'
    · rw [lintStep_eq_outside hm (by assumption)]
      simp only [lintStepE, hm, ho]
      rw [blankIssuesE_eq h1 h2, tabIssuesE_eq, tableResultE_eq]
      simp
    · rw [lintStep_eq_infence hm (by assumption)]
      simp only [lintStepE, hm, ho]
      simp
  · rw [lintStep_eq_fence hm]
    simp only [lintStepE, hm]

theorem scanFromE_eq {path maxLen lines} :
    ∀ {n s i}, 1 ≤ i → i + n ≤ lines.length + 1 →
      scanFromE path maxLen lines s i n = some (scanFrom path maxLen lines s i n) := by
  intro n
  induction n with
  | zero => intro s i _ _; rfl
  | succ n ih =>
    intro s i hi hn
    simp only [scanFromE, scanFrom]
    rw [lintStepE_eq hi (by omega)]
    rw [Option.some_bind]
    rw [ih (by omega) (by omega)]
    rfl

theorem check_linesE_eq (path : String) (maxLen : Nat) (lines : List (List Char)) :
    check_linesE path maxLen lines = some (check_lines path maxLen lines) := by
  unfold check_linesE check_lines
  rw [scanFromE_eq (le_refl 1) (by omega)]
  rw [Option.some_bind]
  have hfin : (if (scanFrom path maxLen lines initState 1 lines.length).1.table_run = []
      then some []
      else tableEndIssuesE path lines.length
        (scanFrom path maxLen lines initState 1 lines.length).1.table_run)
      = some (if (scanFrom path maxLen lines initState 1 lines.length).1.table_run = []
        then []
        else tableEndIssues path lines.length
          (scanFrom path maxLen lines initState 1 lines.length).1.table_run) := by
    split
    · rfl
    · rw [tableEndIssuesE_eq (by assumption)]
  rw [hfin]
  rfl

/-- C9: the per-document scan is total — running it with every partial
operation (the `lines[i-2]` / `lines[i-1]` lookback, `line.index("\t")`,
and `max(set(...), key=...)`) routed through `Option` never fails, and
agrees with the total scan, for every input text and threshold: each such
operation is evaluated only under a guard that makes it safe. -/
theorem C9_total (path : String) (raw : List Char) (maxLen : Nat) :
    check_file_textE path raw maxLen = some (check_file_text path raw maxLen) := by
  unfold check_file_textE check_file_text
  rw [check_linesE_eq]
  rfl

/-- C5: a document whose fence state ends closed (every opened fence was
closed before end of input) yields no `E-FENCE`; a document ending with a
fence still open yields exactly one `E-FENCE`, located at its last line. -/
theorem C5_fence_iff (path : String) (raw : List Char) (maxLen : Nat) :
    (check_file_text path raw maxLen).filter (codeIs "E-FENCE")
      = if (fenceAfter (pySplitlines raw)).isOpen then
          [⟨path, (pySplitlines raw).length, 1, "E-FENCE",
            "열린 코드 펜스가 닫히지 않았습니다.", []⟩]
        else [] := by
  unfold check_file_text
  simp only [List.filter_append]
  rw [fence_filter_check_lines]
  have hcr : (if hasCRLF raw = true then
      [(⟨path, 1, 1, "W-CRLF", "윈도우 CRLF 줄바꿈 감지(가능하면 LF 권장).", []⟩ : Issue)]
    else []).filter (codeIs "E-FENCE") = [] := by
    split
    · simp [codeIs]
    · rfl
  have hnl : (if endsWithNL raw = true then []
    else [(⟨path, 0, 0, "W-NOEOFNL", "파일 끝에 개행(Newline)이 없습니다.", []⟩ : Issue)]).filter
      (codeIs "E-FENCE") = [] := by
    split
    · rfl
    · simp [codeIs]
  rw [hcr, hnl]
  simp
